import Mathlib

/-!
Verification of the mimi-room-policy engine: a shallow embedding of
`src/lib.rs` (role-based room policy: roles, capabilities, protection,
action application, consistency checks) and `src/tls.rs` (wire codec
helpers), together with theorems about the embedded definitions.

Rust `HashMap`/`HashSet` values are represented as association lists and
duplicate-free lists; `Result<T, Error>` is `Except Err T`, where `Err`
has an extra constructor `panicked` marking control paths on which the
Rust code aborts (through `assert!`, `todo!` or `expect`).
-/

namespace MimiRoomPolicy

/-- Errors returned from room policy operations (enum `Error` in lib.rs). -/
inductive Error where
  | NothingToDo
  | RoleNotDefined
  | UserNotInRoom
  | RoleDependencyViolated
  | RoleMinMaxViolated
  | NotCapable
  | RoleAlreadyExists
  | SpecialCapability
  | SpecialRole
  | StringTooLong
  | InvalidRoleDependencies
  | RoleInUse
  | Banned
deriving DecidableEq, Repr

/-- Outcome alternatives of a Rust call: a genuine `Error`, or an abort
(`assert!` / `todo!` / `expect`). -/
inductive Err where
  | err (e : Error)
  | panicked
deriving DecidableEq, Repr

/-- `Result<T>` from lib.rs, with aborts made explicit. -/
abbrev Res (α : Type) := Except Err α

instance {ε α : Type} [DecidableEq ε] [DecidableEq α] : DecidableEq (Except ε α) :=
  fun a b =>
    match a, b with
    | .error e1, .error e2 =>
      if h : e1 = e2 then .isTrue (by rw [h])
      else .isFalse (by intro hc; cases hc; exact h rfl)
    | .ok a1, .ok a2 =>
      if h : a1 = a2 then .isTrue (by rw [h])
      else .isFalse (by intro hc; cases hc; exact h rfl)
    | .error _, .ok _ => .isFalse (by intro hc; cases hc)
    | .ok _, .error _ => .isFalse (by intro hc; cases hc)

/-- Role identifiers (enum `RoleIndex` in lib.rs). `Custom` carries a `u16`
in the source; the payload is modelled as `Nat`. -/
inductive RoleIndex where
  | Outsider
  | Restricted
  | Regular
  | Moderator
  | Admin
  | Owner
  | Custom (n : Nat)
deriving DecidableEq, Repr

/-- True for `RoleIndex::Custom(_)` (method `is_custom`). -/
def RoleIndex.is_custom : RoleIndex → Bool
  | .Custom _ => true
  | _ => false

/-- Message types (enum `MessageType` in lib.rs). -/
inductive MessageType where
  | Reaction
  | Text
  | Image
  | Audio
  | Voice
  | Video
  | File
  | ControlConference
deriving DecidableEq, Repr

/-- Capabilities (enum `Capability` in lib.rs). -/
inductive Capability where
  | Knock
  | Kick
  | Ban
  | GiveRoleOther (role : RoleIndex)
  | DropRoleOther (role : RoleIndex)
  | GiveRoleSelf (role : RoleIndex)
  | IgnoreRatelimit
  | SendMessage (message_type : MessageType)
  | EditMessageOther
  | EditMessageSelf
  | DeleteMessageOther
  | DeleteMessageSelf
deriving DecidableEq, Repr

/-- The definition of a role (struct `RoleInfo` in lib.rs); the `u32`
fields `min` / `max` are modelled as `Nat`. -/
structure RoleInfo where
  role_name : String
  role_description : String
  role_capabilities : List Capability
  dependencies : List RoleIndex
  min : Nat
  max : Option Nat
deriving DecidableEq, Repr

/-- Actions (enum `Action` in lib.rs); `ChangePolicyProperty` carries a
unit placeholder field in the source, dropped here. -/
inductive RoleChange where
  | New (info : RoleInfo)
  | Remove
  | ChangeName (s : String)
  | ChangeDescription (s : String)
  | AddCapability (c : Capability)
  | RemoveCapability (c : Capability)
  | AddDependency (r : RoleIndex)
  | RemoveDependency (r : RoleIndex)
  | SetMin (n : Nat)
  | SetMax (m : Option Nat)
deriving DecidableEq, Repr

inductive Action where
  | Knock
  | Kick (target : String)
  | Ban (target : String) (reason : String) (until_ : Option Nat)
  | GiveRole (target : String) (role : RoleIndex)
  | DropRole (target : String) (role : RoleIndex)
  | SendMessage (message_type : MessageType)
  | EditMessage (target : String)
  | DeleteMessage (target : String)
  | ChangePolicyRole (target : RoleIndex) (action : RoleChange)
  | ChangePolicyProperty
deriving DecidableEq, Repr

/-- Feature preference (enum `Optionality` in lib.rs). -/
inductive Optionality where
  | Optional
  | Required
  | Forbidden
deriving DecidableEq, Repr

/-- The room policy (struct `RoomPolicy` in lib.rs); the `HashMap` of
roles is an association list. -/
structure RoomPolicy where
  roles : List (RoleIndex × RoleInfo)
  parent_room : Option String
  password_protected : Option String
  delivery_notifications : Optionality
  read_receipts : Optionality
  pseudonymous_ids : Bool
deriving DecidableEq, Repr

/-- Ban metadata (struct `BanInfo` in lib.rs); `until_ : Option<u32>` is
modelled with `Nat`. -/
structure BanInfo where
  creator : String
  reason : String
  until_ : Option Nat
deriving DecidableEq, Repr

/-- The room state (struct `RoomState` in lib.rs); `user_roles` maps each
user to their role set (a duplicate-free list standing for a `HashSet`). -/
structure RoomState where
  policy : RoomPolicy
  user_roles : List (String × List RoleIndex)
  users_banned : List (String × BanInfo)
deriving DecidableEq, Repr

/-- A room state that passed the consistency checks
(struct `VerifiedRoomState` in lib.rs). -/
structure VerifiedRoomState where
  state : RoomState
deriving DecidableEq, Repr

/-- Lookup in an association list (`HashMap::get`). -/
def alGet {K V : Type} [DecidableEq K] (m : List (K × V)) (k : K) : Option V :=
  match m with
  | [] => none
  | (k', v) :: rest => if k' = k then some v else alGet rest k

/-- Insert-or-replace in an association list (`HashMap::insert`). -/
def alPut {K V : Type} [DecidableEq K] (m : List (K × V)) (k : K) (v : V) :
    List (K × V) :=
  match m with
  | [] => [(k, v)]
  | (k', v') :: rest => if k' = k then (k, v) :: rest else (k', v') :: alPut rest k v

/-- Remove a key from an association list (`HashMap::remove`). -/
def alRemove {K V : Type} [DecidableEq K] (m : List (K × V)) (k : K) :
    List (K × V) :=
  match m with
  | [] => []
  | (k', v') :: rest => if k' = k then rest else (k', v') :: alRemove rest k

/-- `is_mod`: true if the user has the Moderator role; `UserNotInRoom` if
the user is absent. -/
def isMod (s : RoomState) (user_id : String) : Res Bool :=
  match alGet s.user_roles user_id with
  | none => .error (.err .UserNotInRoom)
  | some roles => .ok (roles.contains RoleIndex.Moderator)

/-- `is_admin`: true if the user has the Admin role; absent users are not
admins (no error, `is_some_and` in the source). -/
def isAdmin (s : RoomState) (user_id : String) : Res Bool :=
  match alGet s.user_roles user_id with
  | none => .ok false
  | some roles => .ok (roles.contains RoleIndex.Admin)

/-- `is_owner`: true if the user has the Owner role; `UserNotInRoom` if
the user is absent. -/
def isOwner (s : RoomState) (user_id : String) : Res Bool :=
  match alGet s.user_roles user_id with
  | none => .error (.err .UserNotInRoom)
  | some roles => .ok (roles.contains RoleIndex.Owner)

/-- `is_protected_from`, with the source's left-to-right short-circuit
evaluation of
`is_owner(target)? || is_admin(target)? && !is_owner(actor)? || is_mod(target)? && is_admin(actor)?`. -/
def isProtectedFrom (s : RoomState) (actor target : String) : Res Bool :=
  if actor = target then .ok false
  else
    match isOwner s target with
    | .error e => .error e
    | .ok true => .ok true
    | .ok false =>
      match isAdmin s target with
      | .error e => .error e
      | .ok ta =>
        match (match ta with
               | true =>
                 match isOwner s actor with
                 | .error e => .error e
                 | .ok oa => .ok (!oa)
               | false => .ok false : Res Bool) with
        | .error e => .error e
        | .ok true => .ok true
        | .ok false =>
          match isMod s target with
          | .error e => .error e
          | .ok false => .ok false
          | .ok true => isAdmin s actor

/-- Capabilities collected from a list of roles (the loop inside
`user_explicit_capabilities`); fails with `RoleNotDefined` on a role
absent from the policy. -/
def capsOfRoles (p : RoomPolicy) : List RoleIndex → Res (List Capability)
  | [] => .ok []
  | r :: rest =>
    match alGet p.roles r with
    | none => .error (.err .RoleNotDefined)
    | some info =>
      match capsOfRoles p rest with
      | .error e => .error e
      | .ok caps => .ok (info.role_capabilities ++ caps)

/-- `user_explicit_capabilities`: the union of capabilities over the
user's roles; a user with no roles gets the Outsider role's capabilities. -/
def userExplicitCapabilities (s : RoomState) (user_id : String) :
    Res (List Capability) :=
  let roles :=
    match alGet s.user_roles user_id with
    | some assigned => assigned
    | none => [RoleIndex.Outsider]
  capsOfRoles s.policy roles

/-- `is_capable`: explicit capability or administrator override. -/
def isCapable (s : RoomState) (user_id : String) (c : Capability) : Res Bool :=
  match userExplicitCapabilities s user_id with
  | .error e => .error e
  | .ok caps =>
    if caps.contains c then .ok true
    else isAdmin s user_id

/-- `give_user_role`: insert the role into the user's role set, creating
the entry if the user is absent; `NothingToDo` if already held. -/
def giveUserRole (s : RoomState) (user_id : String) (role : RoleIndex) :
    Res RoomState :=
  match alGet s.user_roles user_id with
  | none => .ok { s with user_roles := s.user_roles ++ [(user_id, [role])] }
  | some roles =>
    if roles.contains role then .error (.err .NothingToDo)
    else .ok { s with user_roles := alPut s.user_roles user_id (roles ++ [role]) }

/-- `drop_user_role`: remove the role from the user's role set;
`UserNotInRoom` if absent, `NothingToDo` if the role is not held. -/
def dropUserRole (s : RoomState) (user_id : String) (role : RoleIndex) :
    Res RoomState :=
  match alGet s.user_roles user_id with
  | none => .error (.err .UserNotInRoom)
  | some roles =>
    if roles.contains role then
      .ok { s with user_roles := alPut s.user_roles user_id (roles.erase role) }
    else .error (.err .NothingToDo)

/-- Drop every role in the list from the target (the loop inside the
`Kick` and `Ban` arms). -/
def dropAllRoles (s : RoomState) (target : String) :
    List RoleIndex → Res RoomState
  | [] => .ok s
  | r :: rest =>
    match dropUserRole s target r with
    | .error e => .error e
    | .ok s' => dropAllRoles s' target rest

/-- `join_room_actions`: the `GiveRole` actions derived from the Outsider
role's `GiveRoleSelf` capabilities; `NotCapable` when there are none. -/
def joinRoomActions (s : RoomState) (user_id : String) : Res (List Action) :=
  match alGet s.policy.roles RoleIndex.Outsider with
  | none => .error (.err .RoleNotDefined)
  | some info =>
    let actions := info.role_capabilities.filterMap fun c =>
      match c with
      | .GiveRoleSelf role => some (Action.GiveRole user_id role)
      | _ => none
    if actions.isEmpty then .error (.err .NotCapable) else .ok actions

/-- One iteration of the action loop in `try_make_actions`. -/
def applyAction (s : RoomState) (user_id : String) : Action → Res RoomState
  | .Knock => .error .panicked
  | .Kick target =>
    match (if user_id ≠ target then
             match isCapable s user_id .Kick with
             | .error e => .error e
             | .ok c => .ok (!c)
           else .ok false : Res Bool) with
    | .error e => .error e
    | .ok true => .error (.err .NotCapable)
    | .ok false =>
      match isProtectedFrom s user_id target with
      | .error e => .error e
      | .ok true => .error (.err .NotCapable)
      | .ok false =>
        match alGet s.user_roles target with
        | none => .error (.err .UserNotInRoom)
        | some roles => dropAllRoles s target roles
  | .Ban target reason until_ =>
    match (if user_id = target then .ok true
           else
             match isCapable s user_id .Ban with
             | .error e => .error e
             | .ok c => .ok (!c) : Res Bool) with
    | .error e => .error e
    | .ok true => .error (.err .NotCapable)
    | .ok false =>
      match isProtectedFrom s user_id target with
      | .error e => .error e
      | .ok true => .error (.err .NotCapable)
      | .ok false =>
        match alGet s.user_roles target with
        | none => .error (.err .UserNotInRoom)
        | some roles =>
          match dropAllRoles s target roles with
          | .error e => .error e
          | .ok s' =>
            .ok { s' with
              users_banned :=
                alPut s'.users_banned target ⟨user_id, reason, until_⟩ }
  | .GiveRole target role =>
    match (if target = user_id then isCapable s user_id (.GiveRoleSelf role)
           else .ok false : Res Bool) with
    | .error e => .error e
    | .ok valid_to_self =>
      match isCapable s user_id (.GiveRoleOther role) with
      | .error e => .error e
      | .ok valid_to_other =>
        if !valid_to_self && !valid_to_other then .error (.err .NotCapable)
        else giveUserRole s target role
  | .DropRole target role =>
    let valid_to_self := target = user_id
    match (match isCapable s user_id (.DropRoleOther role) with
           | .error e => .error e
           | .ok false => .ok false
           | .ok true =>
             match isProtectedFrom s user_id target with
             | .error e => .error e
             | .ok p => .ok (!p) : Res Bool) with
    | .error e => .error e
    | .ok valid_to_other =>
      if !valid_to_self && !valid_to_other then .error (.err .NotCapable)
      else dropUserRole s target role
  | .SendMessage message_type =>
    match isCapable s user_id (.SendMessage message_type) with
    | .error e => .error e
    | .ok false => .error (.err .NotCapable)
    | .ok true => .ok s
  | .EditMessage target =>
    match (if target = user_id then isCapable s user_id .EditMessageSelf
           else .ok false : Res Bool) with
    | .error e => .error e
    | .ok valid_to_self =>
      match (match isCapable s user_id .EditMessageOther with
             | .error e => .error e
             | .ok false => .ok false
             | .ok true =>
               match isProtectedFrom s user_id target with
               | .error e => .error e
               | .ok p => .ok (!p) : Res Bool) with
      | .error e => .error e
      | .ok valid_to_other =>
        if !valid_to_self && !valid_to_other then .error (.err .NotCapable)
        else .ok s
  | .DeleteMessage target =>
    match (if target = user_id then isCapable s user_id .DeleteMessageSelf
           else .ok false : Res Bool) with
    | .error e => .error e
    | .ok valid_to_self =>
      match (match isCapable s user_id .DeleteMessageOther with
             | .error e => .error e
             | .ok false => .ok false
             | .ok true =>
               match isProtectedFrom s user_id target with
               | .error e => .error e
               | .ok p => .ok (!p) : Res Bool) with
      | .error e => .error e
      | .ok valid_to_other =>
        if !valid_to_self && !valid_to_other then .error (.err .NotCapable)
        else .ok s
  | .ChangePolicyRole target action =>
    match isAdmin s user_id with
    | .error e => .error e
    | .ok false => .error (.err .NotCapable)
    | .ok true =>
      match action with
      | .New role_info =>
        if !target.is_custom || (alGet s.policy.roles target).isSome then
          .error (.err .RoleAlreadyExists)
        else
          .ok { s with policy :=
            { s.policy with roles := alPut s.policy.roles target role_info } }
      | .Remove =>
        if s.user_roles.any fun ur => ur.2.contains target then
          .error (.err .RoleInUse)
        else
          .ok { s with policy :=
            { s.policy with roles := alRemove s.policy.roles target } }
      | .ChangeName new_name =>
        match alGet s.policy.roles target with
        | none => .error (.err .RoleNotDefined)
        | some info =>
          if info.role_name = new_name then .error (.err .NothingToDo)
          else
            let info' := { info with role_name := new_name }
            .ok { s with policy :=
              { s.policy with roles := alPut s.policy.roles target info' } }
      | .ChangeDescription new_description =>
        match alGet s.policy.roles target with
        | none => .error (.err .RoleNotDefined)
        | some info =>
          if info.role_description = new_description then .error (.err .NothingToDo)
          else
            let info' := { info with role_description := new_description }
            .ok { s with policy :=
              { s.policy with roles := alPut s.policy.roles target info' } }
      | .AddCapability c =>
        match alGet s.policy.roles target with
        | none => .error (.err .RoleNotDefined)
        | some info =>
          if info.role_capabilities.contains c then .error (.err .NothingToDo)
          else
            let info' := { info with role_capabilities := info.role_capabilities ++ [c] }
            .ok { s with policy :=
              { s.policy with roles := alPut s.policy.roles target info' } }
      | .RemoveCapability c =>
        match alGet s.policy.roles target with
        | none => .error (.err .RoleNotDefined)
        | some info =>
          if !info.role_capabilities.contains c then .error (.err .NothingToDo)
          else
            let info' := { info with role_capabilities := info.role_capabilities.filter (· ≠ c) }
            .ok { s with policy :=
              { s.policy with roles := alPut s.policy.roles target info' } }
      | .AddDependency d =>
        match alGet s.policy.roles target with
        | none => .error (.err .RoleNotDefined)
        | some info =>
          if info.dependencies.contains d then .error (.err .NothingToDo)
          else
            let info' := { info with dependencies := info.dependencies ++ [d] }
            .ok { s with policy :=
              { s.policy with roles := alPut s.policy.roles target info' } }
      | .RemoveDependency d =>
        match alGet s.policy.roles target with
        | none => .error (.err .RoleNotDefined)
        | some info =>
          if !info.dependencies.contains d then .error (.err .NothingToDo)
          else
            let info' := { info with dependencies := info.dependencies.filter (· ≠ d) }
            .ok { s with policy :=
              { s.policy with roles := alPut s.policy.roles target info' } }
      | .SetMin new_min =>
        match alGet s.policy.roles target with
        | none => .error (.err .RoleNotDefined)
        | some info =>
          if info.min = new_min then .error (.err .NothingToDo)
          else
            let info' := { info with min := new_min }
            .ok { s with policy :=
              { s.policy with roles := alPut s.policy.roles target info' } }
      | .SetMax new_max =>
        match alGet s.policy.roles target with
        | none => .error (.err .RoleNotDefined)
        | some info =>
          if info.max = new_max then .error (.err .NothingToDo)
          else
            let info' := { info with max := new_max }
            .ok { s with policy :=
              { s.policy with roles := alPut s.policy.roles target info' } }
  | .ChangePolicyProperty => .error .panicked

/-- The action loop of `try_make_actions` (early return on the first
failure). -/
def applyActions (user_id : String) : RoomState → List Action → Res RoomState
  | s, [] => .ok s
  | s, a :: rest =>
    match applyAction s user_id a with
    | .error e => .error e
    | .ok s' => applyActions user_id s' rest

/-- `try_make_actions`: the empty-batch `assert!` and the ban check
(aborting on a timed ban, `todo!` in the source), then the action loop. -/
def tryMakeActions (s : RoomState) (user_id : String) (actions : List Action) :
    Res RoomState :=
  if actions.isEmpty then .error .panicked
  else
    match alGet s.users_banned user_id with
    | some ban =>
      match ban.until_ with
      | none => .error (.err .Banned)
      | some _ => .error .panicked
    | none => applyActions user_id s actions

/-- Rank of a role under the derived `Ord` of `RoleIndex` (variant order,
`Custom` payloads compared numerically). -/
def roleKey : RoleIndex → Nat
  | .Outsider => 0
  | .Restricted => 1
  | .Regular => 2
  | .Moderator => 3
  | .Admin => 4
  | .Owner => 5
  | .Custom n => 6 + n

def roleLe (a b : RoleIndex) : Bool := roleKey a ≤ roleKey b

/-- Rank under the derived `Ord` of `MessageType`. -/
def mtKey : MessageType → Nat
  | .Reaction => 0
  | .Text => 1
  | .Image => 2
  | .Audio => 3
  | .Voice => 4
  | .Video => 5
  | .File => 6
  | .ControlConference => 7

/-- Variant rank under the derived `Ord` of `Capability`. -/
def capIdx : Capability → Nat
  | .Knock => 0
  | .Kick => 1
  | .Ban => 2
  | .GiveRoleOther _ => 3
  | .DropRoleOther _ => 4
  | .GiveRoleSelf _ => 5
  | .IgnoreRatelimit => 6
  | .SendMessage _ => 7
  | .EditMessageOther => 8
  | .EditMessageSelf => 9
  | .DeleteMessageOther => 10
  | .DeleteMessageSelf => 11

def capPayload : Capability → Nat
  | .GiveRoleOther r => roleKey r
  | .DropRoleOther r => roleKey r
  | .GiveRoleSelf r => roleKey r
  | .SendMessage m => mtKey m
  | _ => 0

def capLe (a b : Capability) : Bool :=
  capIdx a < capIdx b || (capIdx a == capIdx b && capPayload a ≤ capPayload b)

/-- Insertion into a sorted list (used to model `Vec::sort`). -/
def insertSorted {α : Type} (le : α → α → Bool) (a : α) : List α → List α
  | [] => [a]
  | b :: rest => if le a b then a :: b :: rest else b :: insertSorted le a rest

/-- Insertion sort: a sorted permutation, as `Vec::sort` produces for the
total orders used here. -/
def insSort {α : Type} (le : α → α → Bool) : List α → List α
  | [] => []
  | a :: rest => insertSorted le a (insSort le rest)

/-- Remove consecutive duplicates (`Vec::dedup`). -/
def dedupAdj {α : Type} [DecidableEq α] : List α → List α
  | [] => []
  | [a] => [a]
  | a :: b :: rest =>
    if a = b then dedupAdj (b :: rest) else a :: dedupAdj (b :: rest)

/-- Canonicalize a role's capability and dependency lists (the sort +
dedup step of `consistency_checks`). -/
def canonInfo (info : RoleInfo) : RoleInfo :=
  { info with
    role_capabilities := dedupAdj (insSort capLe info.role_capabilities)
    dependencies := dedupAdj (insSort roleLe info.dependencies) }

def Capability.isGiveRoleSelf : Capability → Bool
  | .GiveRoleSelf _ => true
  | _ => false

/-- The per-capability restrictions of `consistency_checks`: Outsiders may
only knock or join; Admin and Owner carry no explicit capabilities. -/
def capCheckRole (role : RoleIndex) : List Capability → Res Unit
  | [] => .ok ()
  | c :: rest =>
    if (c ≠ Capability.Knock ∧ c.isGiveRoleSelf = false) ∧ role = RoleIndex.Outsider then
      .error (.err .SpecialRole)
    else if role = RoleIndex.Admin ∨ role = RoleIndex.Owner then
      .error (.err .SpecialRole)
    else capCheckRole role rest

/-- The `dependencies_valid` match of `consistency_checks`. -/
def dependenciesValid (role : RoleIndex) (deps : List RoleIndex) : Bool :=
  match role with
  | .Outsider => deps == []
  | .Restricted => deps == []
  | .Regular => deps == [RoleIndex.Restricted]
  | .Moderator => deps == [RoleIndex.Regular]
  | .Admin => deps == [RoleIndex.Moderator]
  | .Owner => deps == [RoleIndex.Admin]
  | .Custom _ => !(deps.contains RoleIndex.Outsider) && !(deps.contains RoleIndex.Restricted)

/-- Number of users holding a role. The source accumulates a
`role_counts` map over the same user/role entries; since role sets are
duplicate-free, the count for a role equals the number of users whose
role set contains it. -/
def roleCount (userRoles : List (String × List RoleIndex)) (r : RoleIndex) : Nat :=
  (userRoles.filter fun ur => ur.2.contains r).length

def maxExceeded (max : Option Nat) (count : Nat) : Bool :=
  match max with
  | some mx => count > mx
  | none => false

/-- The per-role body of the `for (role, role_info)` loop of
`consistency_checks`: canonicalize, then capability restrictions,
dependency shape, name lengths, direct self-dependency, and min/max. -/
def checkOneRole (count : Nat) (role : RoleIndex) (info : RoleInfo) : Res RoleInfo :=
  let info' := canonInfo info
  match capCheckRole role info'.role_capabilities with
  | .error e => .error e
  | .ok () =>
    if dependenciesValid role info'.dependencies = false then
      .error (.err .InvalidRoleDependencies)
    else if info'.role_name.utf8ByteSize > 1000 then
      .error (.err .StringTooLong)
    else if info'.role_description.utf8ByteSize > 1000 then
      .error (.err .StringTooLong)
    else if info'.dependencies.contains role then
      .error (.err .InvalidRoleDependencies)
    else if count < info'.min ∨ maxExceeded info'.max count = true then
      .error (.err .RoleMinMaxViolated)
    else .ok info'

def checkRoles (userRoles : List (String × List RoleIndex)) :
    List (RoleIndex × RoleInfo) → Res (List (RoleIndex × RoleInfo))
  | [] => .ok []
  | (r, info) :: rest =>
    match checkOneRole (roleCount userRoles r) r info with
    | .error e => .error e
    | .ok info' =>
      match checkRoles userRoles rest with
      | .error e => .error e
      | .ok rest' => .ok ((r, info') :: rest')

/-- Dependency-closure check for one user: each held role is defined and
all its dependencies are also held. (The source re-looks up `role` a
second time inside the dependency loop; that lookup always succeeds
there and is omitted.) -/
def depsCheckRoles (p : RoomPolicy) (rolesOfUser : List RoleIndex) :
    List RoleIndex → Res Unit
  | [] => .ok ()
  | r :: rest =>
    match alGet p.roles r with
    | none => .error (.err .RoleNotDefined)
    | some info =>
      if info.dependencies.all (rolesOfUser.contains ·) then
        depsCheckRoles p rolesOfUser rest
      else .error (.err .RoleDependencyViolated)

def depsCheck (p : RoomPolicy) : List (String × List RoleIndex) → Res Unit
  | [] => .ok ()
  | (_, roles) :: rest =>
    match depsCheckRoles p roles roles with
    | .error e => .error e
    | .ok () => depsCheck p rest

/-- Ban-exclusivity check: a `Some` expiry aborts (`todo!` in the
source); a permanent ban on a current member fails with `Banned`. -/
def banCheck (userRoles : List (String × List RoleIndex)) :
    List (String × BanInfo) → Res Unit
  | [] => .ok ()
  | (u, ban) :: rest =>
    match ban.until_ with
    | some _ => .error .panicked
    | none =>
      if (alGet userRoles u).isSome then .error (.err .Banned)
      else banCheck userRoles rest

/-- The six `assert!`s at the top of `consistency_checks`. -/
def structuralRolesPresent (p : RoomPolicy) : Bool :=
  (alGet p.roles RoleIndex.Outsider).isSome &&
  (alGet p.roles RoleIndex.Restricted).isSome &&
  (alGet p.roles RoleIndex.Regular).isSome &&
  (alGet p.roles RoleIndex.Moderator).isSome &&
  (alGet p.roles RoleIndex.Admin).isSome &&
  (alGet p.roles RoleIndex.Owner).isSome

/-- `consistency_checks`: structural-role asserts, per-user dependency
closure, per-role canonicalization and checks, garbage collection of
zero-role users, then the ban-exclusivity check. -/
def consistencyChecks (s : RoomState) : Res VerifiedRoomState :=
  if structuralRolesPresent s.policy = false then .error .panicked
  else
    match depsCheck s.policy s.user_roles with
    | .error e => .error e
    | .ok () =>
      match checkRoles s.user_roles s.policy.roles with
      | .error e => .error e
      | .ok roles' =>
        let userRoles' := s.user_roles.filter fun ur => !ur.2.isEmpty
        match banCheck userRoles' s.users_banned with
        | .error e => .error e
        | .ok () =>
          .ok ⟨{ policy := { s.policy with roles := roles' }
                 user_roles := userRoles'
                 users_banned := s.users_banned }⟩

/-- Room policy presets (enum `PolicyTemplate` in lib.rs). -/
inductive PolicyTemplate where
  | Announcement
  | Public
  | InviteOnly
  | Knock
  | FixedMembership
  | ParentDependent
deriving DecidableEq, Repr

def outsiderCaps : PolicyTemplate → List Capability
  | .Announcement | .Public => [.GiveRoleSelf RoleIndex.Restricted]
  | .Knock => [.Knock]
  | _ => []

/-- The `Restricted` role entry of `new_from_template`. The
`ParentDependent` arm aborts in the source (`todo!`); `newFromTemplate`
diverts that template before this table is consulted. -/
def restrictedInfo : PolicyTemplate → RoleInfo
  | .Announcement =>
    { role_name := "Visitor"
      role_description := "Can only send reactions"
      role_capabilities :=
        [.EditMessageSelf, .DeleteMessageSelf,
         .SendMessage MessageType.Reaction,
         .GiveRoleOther RoleIndex.Restricted]
      dependencies := []
      min := 0
      max := none }
  | _ =>
    { role_name := "Restricted"
      role_description := "Can only read"
      role_capabilities := [.EditMessageSelf, .DeleteMessageSelf]
      dependencies := []
      min := 0
      max := none }

/-- The role table built by `new_from_template`, in insertion order. -/
def templateRoles (t : PolicyTemplate) : List (RoleIndex × RoleInfo) :=
  [(RoleIndex.Outsider,
    { role_name := "Outsider"
      role_description := "Not in the room"
      role_capabilities := outsiderCaps t
      dependencies := []
      min := 0
      max := some 0 }),
   (RoleIndex.Restricted, restrictedInfo t),
   (RoleIndex.Regular,
    { role_name := "Regular user"
      role_description := "Can read and send messages normally"
      role_capabilities :=
        [.SendMessage MessageType.Text, .SendMessage MessageType.Image,
         .SendMessage MessageType.Voice, .SendMessage MessageType.Audio,
         .SendMessage MessageType.Video, .SendMessage MessageType.File,
         .IgnoreRatelimit]
      dependencies := [RoleIndex.Restricted]
      min := 0
      max := none }),
   (RoleIndex.Moderator,
    { role_name := "Moderator"
      role_description :=
        "Can edit or remove messages sent by others. Can promote more moderators"
      role_capabilities :=
        [.EditMessageOther, .DeleteMessageOther, .Kick, .Ban,
         .SendMessage MessageType.ControlConference,
         .GiveRoleOther RoleIndex.Regular,
         .GiveRoleOther RoleIndex.Moderator]
      dependencies := [RoleIndex.Regular]
      min := 0
      max := none }),
   (RoleIndex.Admin,
    { role_name := "Admin"
      role_description := "Has all capabilities"
      role_capabilities := []
      dependencies := [RoleIndex.Moderator]
      min := 0
      max := none }),
   (RoleIndex.Owner,
    { role_name := "Owner"
      role_description := "Is protected from admins"
      role_capabilities := []
      dependencies := [RoleIndex.Admin]
      min := 1
      max := some 1 })]

def templatePolicy (t : PolicyTemplate) : RoomPolicy :=
  { roles := templateRoles t
    parent_room := none
    password_protected := none
    delivery_notifications := .Optional
    read_receipts := .Optional
    pseudonymous_ids := false }

/-- `RoomState::new`: the owner starts with the five member roles. -/
def RoomState.new (owner : String) (policy : RoomPolicy) : RoomState :=
  { policy := policy
    user_roles :=
      [(owner, [RoleIndex.Restricted, RoleIndex.Regular, RoleIndex.Moderator,
                RoleIndex.Admin, RoleIndex.Owner])]
    users_banned := [] }

/-- `RoomState::new_from_template`; the `ParentDependent` template aborts
(`todo!` in the source). -/
def RoomState.newFromTemplate (owner : String) : PolicyTemplate → Res RoomState
  | .ParentDependent => .error .panicked
  | t => .ok (RoomState.new owner (templatePolicy t))

/-- `VerifiedRoomState::new_from_template`; the `expect` aborts when the
checks fail. -/
def VerifiedRoomState.newFromTemplate (owner : String) (t : PolicyTemplate) :
    Res VerifiedRoomState :=
  match RoomState.newFromTemplate owner t with
  | .error e => .error e
  | .ok s =>
    match consistencyChecks s with
    | .error _ => .error .panicked
    | .ok v => .ok v

/-- `VerifiedRoomState::make_actions`, with the `&mut self` receiver made
explicit: the second component is the state held by the caller after the
call (unchanged on failure, the verified result on success). -/
def makeActions (v : VerifiedRoomState) (user_id : String)
    (actions : List Action) : Res Unit × VerifiedRoomState :=
  match tryMakeActions v.state user_id actions with
  | .error e => (.error e, v)
  | .ok s' =>
    match consistencyChecks s' with
    | .error e => (.error e, v)
    | .ok v' => (.ok (), v')

/-- A two-member room over the `Public` template policy: an owner `"o"`
(all five member roles) and `"a"` holding Admin but not Owner. -/
def stOwnerAdmin : RoomState :=
  { policy := templatePolicy .Public
    user_roles :=
      [("o", [RoleIndex.Restricted, RoleIndex.Regular, RoleIndex.Moderator,
              RoleIndex.Admin, RoleIndex.Owner]),
       ("a", [RoleIndex.Restricted, RoleIndex.Regular, RoleIndex.Moderator,
              RoleIndex.Admin])]
    users_banned := [] }

/-- A three-member room over the `Public` template policy: owner `"o"`,
moderator `"m"` (not Admin) and admin `"a"` (not Owner). -/
def stModAdmin : RoomState :=
  { policy := templatePolicy .Public
    user_roles :=
      [("o", [RoleIndex.Restricted, RoleIndex.Regular, RoleIndex.Moderator,
              RoleIndex.Admin, RoleIndex.Owner]),
       ("m", [RoleIndex.Restricted, RoleIndex.Regular, RoleIndex.Moderator]),
       ("a", [RoleIndex.Restricted, RoleIndex.Regular, RoleIndex.Moderator,
              RoleIndex.Admin])]
    users_banned := [] }

/-- The verified room behind a successful `consistency_checks` run; the
fallback branch is never reached at the call sites below. -/
def verifiedOf (s : RoomState) : VerifiedRoomState :=
  match consistencyChecks s with
  | .ok v => v
  | .error _ => ⟨s⟩

/-- A freshly templated `Public` room with owner `"o"`, in verified form. -/
def pubVerified : VerifiedRoomState :=
  verifiedOf (RoomState.new "o" (templatePolicy .Public))

/-- A freshly templated `Announcement` room with owner `"o"`, in verified
form. -/
def annVerified : VerifiedRoomState :=
  verifiedOf (RoomState.new "o" (templatePolicy .Announcement))

/-- A result that is a genuine `Error` or a success: no abort. -/
def okOrErr {α : Type} (r : Res α) : Prop :=
  (∃ e, r = .error (.err e)) ∨ ∃ a, r = .ok a

/-- The dependency list a role's policy entry declares (empty when the
role is not defined). -/
def depsOf (p : RoomPolicy) (r : RoleIndex) : List RoleIndex :=
  match alGet p.roles r with
  | some info => info.dependencies
  | none => []

/-- Invariant 2: for every user and every role they hold, every
dependency role of that role is also held by that user. -/
def DepClosure (s : RoomState) : Prop :=
  ∀ ur ∈ s.user_roles, ∀ r ∈ ur.2, ∀ d ∈ depsOf s.policy r, d ∈ ur.2

/-- Invariant 3: for every role, the number of holders lies within
`[min, max]` (an absent max is unbounded). -/
def MinMaxInv (s : RoomState) : Prop :=
  ∀ ri ∈ s.policy.roles,
    ri.2.min ≤ roleCount s.user_roles ri.1 ∧
    maxExceeded ri.2.max (roleCount s.user_roles ri.1) = false

/-- Invariant 8: no user with a non-expired (here: permanent) ban entry
appears in the membership mapping. -/
def BanExclusive (s : RoomState) : Prop :=
  ∀ ub ∈ s.users_banned, ub.2.until_ = none → alGet s.user_roles ub.1 = none

/-- Invariant 9: no user in the membership mapping has an empty role set. -/
def NoEmptyRoleSet (s : RoomState) : Prop :=
  ∀ ur ∈ s.user_roles, ur.2 ≠ []

def StateInvariants (s : RoomState) : Prop :=
  DepClosure s ∧ MinMaxInv s ∧ BanExclusive s ∧ NoEmptyRoleSet s

/-!
Wire codec. `src/tls.rs` implements the associative-map codec
(`btreemap::tls_serialize` / `tls_deserialize_bytes`) and the boolean
codec on top of the external `tls_codec` crate. Bytes are `Nat` lists.
`BTreeMap` is a strictly key-sorted association list.
-/

/-- Modelled from the spec and the external `tls_codec` crate
(`vlen::write_length`, not in src/): the variable-length length encoding:
a two-bit width marker in the first byte, then the big-endian value (1,
2, 4 or 8 bytes in total); lengths of `2^62` or more are an error. -/
def writeLength (n : Nat) : Option (List Nat) :=
  if n < 64 then some [n]
  else if n < 16384 then some [64 + n / 256, n % 256]
  else if n < 1073741824 then
    some [128 + n / 16777216, n / 65536 % 256, n / 256 % 256, n % 256]
  else if n < 4611686018427387904 then
    some [192 + n / 72057594037927936,
          n / 281474976710656 % 256, n / 1099511627776 % 256,
          n / 4294967296 % 256, n / 16777216 % 256, n / 65536 % 256,
          n / 256 % 256, n % 256]
  else none

/-- Modelled from the spec and the external `tls_codec` crate
(`vlen::read_length`, not in src/): returns the length, the number of
bytes the length occupied, and the remaining bytes. -/
def readLength : List Nat → Option (Nat × Nat × List Nat)
  | [] => none
  | b :: rest =>
    match b / 64 with
    | 0 => some (b, 1, rest)
    | 1 =>
      match rest with
      | b1 :: r => some ((b % 64) * 256 + b1, 2, r)
      | _ => none
    | 2 =>
      match rest with
      | b1 :: b2 :: b3 :: r =>
        some ((b % 64) * 16777216 + b1 * 65536 + b2 * 256 + b3, 4, r)
      | _ => none
    | _ =>
      match rest with
      | b1 :: b2 :: b3 :: b4 :: b5 :: b6 :: b7 :: r =>
        some ((b % 64) * 72057594037927936 + b1 * 281474976710656 +
              b2 * 1099511627776 + b3 * 4294967296 + b4 * 16777216 +
              b5 * 65536 + b6 * 256 + b7, 8, r)
      | _ => none

/-- `writeLength` with the error mapped to the empty byte string (the
callers below only use it on lengths the validity predicates bound). -/
def writeLengthT (n : Nat) : List Nat :=
  match writeLength n with
  | some bs => bs
  | none => []

/-- A wire codec for one type: `tls_serialize` output, a
`tls_deserialize_bytes` returning the value and the remainder, and
`tls_serialized_len`. -/
structure Codec (α : Type) where
  enc : α → List Nat
  dec : List Nat → Option (α × List Nat)
  len : α → Nat

/-- The codec laws the round-trip proofs use, relative to a validity
predicate: decoding an encoding (with any remainder appended) returns
the value and that remainder, the reported length is the encoded length,
and encodings are non-empty. -/
def GoodOn {α : Type} (c : Codec α) (P : α → Prop) : Prop :=
  ∀ x, P x →
    (∀ rest, c.dec (c.enc x ++ rest) = some (x, rest)) ∧
    c.len x = (c.enc x).length ∧ 0 < c.len x

/-- Insertion into a strictly key-sorted association list
(`BTreeMap::insert`: replaces the value on an equal key). -/
def btInsert {K V : Type} [LinearOrder K] (k : K) (v : V) :
    List (K × V) → List (K × V)
  | [] => [(k, v)]
  | (k', v') :: rest =>
    if k < k' then (k, v) :: (k', v') :: rest
    else if k = k' then (k, v) :: rest
    else (k', v') :: btInsert k v rest

/-- Sum of the serialized lengths of all pairs (the `content_len` /
`content_length` computation of `btreemap::tls_serialize`). -/
def mapContentLen {K V : Type} (ck : Codec K) (cv : Codec V)
    (m : List (K × V)) : Nat :=
  (m.map fun kv => ck.len kv.1 + cv.len kv.2).sum

/-- `btreemap::tls_serialize`: the variable-length-encoded byte length
of the content followed by the key/value pairs in map order. (The
`debug_assertions`-only recount of written bytes is not modelled.) -/
def mapSerialize {K V : Type} (ck : Codec K) (cv : Codec V)
    (m : List (K × V)) : Option (List Nat) :=
  match writeLength (mapContentLen ck cv m) with
  | none => none
  | some ll => some (ll ++ (m.map fun kv => ck.enc kv.1 ++ cv.enc kv.2).join)

/-- The `while (read - len_len) < len` loop of
`btreemap::tls_deserialize_bytes`, with the iteration count made explicit
as fuel: the outer `none` marks fuel exhaustion (the loop in the source
would not terminate), the inner `none` a decoding error. `consumed`
counts the serialized lengths of the decoded keys and values, exactly as
`read - len_len` does in the source. -/
def mapDeserializeLoop {K V : Type} [LinearOrder K] (ck : Codec K)
    (cv : Codec V) :
    Nat → Nat → Nat → List Nat → List (K × V) →
    Option (Option (List (K × V) × List Nat))
  | fuel, len, consumed, bytes, acc =>
    if consumed < len then
      match fuel with
      | 0 => none
      | fuel' + 1 =>
        match ck.dec bytes with
        | none => some none
        | some (k, r1) =>
          match cv.dec r1 with
          | none => some none
          | some (v, r2) =>
            mapDeserializeLoop ck cv fuel' len
              (consumed + ck.len k + cv.len v) r2 (btInsert k v acc)
    else some (some (acc, bytes))

/-- `btreemap::tls_deserialize_bytes`: read the declared content length;
an empty map for length 0, otherwise the pair loop. The loop consumes at
least one byte of declared length per iteration when pair lengths are
positive, so `len + 1` fuel is never exhausted for such codecs. -/
def mapDeserialize {K V : Type} [LinearOrder K] (ck : Codec K)
    (cv : Codec V) (bytes : List Nat) :
    Option (Option (List (K × V) × List Nat)) :=
  match readLength bytes with
  | none => some none
  | some (len, _, rest) =>
    if len = 0 then some (some ([], rest))
    else mapDeserializeLoop ck cv (len + 1) len 0 rest []

/-- A one-byte unsigned integer codec (`u8` in `tls_codec`), with an
optional tag prefix (empty for the TLS-style encoding). -/
def u8C (pre : List Nat) : Codec Nat :=
  { enc := fun n => pre ++ [n % 256]
    dec := fun bs =>
      match bs.dropPrefix? pre with
      | none => none
      | some rest =>
        match rest with
        | [] => none
        | b :: r => some (b, r)
    len := fun _ => pre.length + 1 }

/-!
Struct codecs. The wire encodings of `RoomPolicy`, `RoomState` and
`VerifiedRoomState` are not part of src/ and are modelled from the spec:
fixed-width big-endian integers; strings as a variable-length-encoded
UTF-8 byte count followed by the bytes; lists as a variable-length-encoded
element count followed by the elements; maps by the implemented
associative-map codec in sorted key order; booleans as one byte (the
`bool` module of tls.rs); enums (unspecified by the spec) as a
discriminant byte followed by the payload. Every codec below takes a
`pre` prefix: the TLS-style encoding uses an empty prefix everywhere,
while the secondary self-describing encoding (standing in for the CBOR
encoding, whose implementation is also not in src/) prefixes every value
with a type-tag byte, making the same field-for-field schema
self-describing. -/

/-- The per-value prefix for the two encodings: empty for the TLS-style
encoding, a type-tag byte for the self-describing encoding. -/
def preO (m : Bool) (t : Nat) : List Nat := if m then [t] else []

/-- Modelled from the spec: two-byte big-endian unsigned integer. -/
def u16C (pre : List Nat) : Codec Nat :=
  { enc := fun n => pre ++ [n / 256 % 256, n % 256]
    dec := fun bs =>
      match bs.dropPrefix? pre with
      | none => none
      | some r =>
        match r with
        | b0 :: b1 :: r2 => some (b0 * 256 + b1, r2)
        | _ => none
    len := fun _ => pre.length + 2 }

/-- Modelled from the spec: four-byte big-endian unsigned integer. -/
def u32C (pre : List Nat) : Codec Nat :=
  { enc := fun n =>
      pre ++ [n / 16777216 % 256, n / 65536 % 256, n / 256 % 256, n % 256]
    dec := fun bs =>
      match bs.dropPrefix? pre with
      | none => none
      | some r =>
        match r with
        | b0 :: b1 :: b2 :: b3 :: r2 =>
          some (b0 * 16777216 + b1 * 65536 + b2 * 256 + b3, r2)
        | _ => none
    len := fun _ => pre.length + 4 }

/-- The boolean codec of tls.rs (`bool::tls_serialize` /
`tls_deserialize_bytes`): one byte, decoded as `byte != 0`. -/
def boolC (pre : List Nat) : Codec Bool :=
  { enc := fun b => pre ++ [if b then 1 else 0]
    dec := fun bs =>
      match bs.dropPrefix? pre with
      | none => none
      | some r =>
        match r with
        | b :: r2 => some (decide (b ≠ 0), r2)
        | _ => none
    len := fun _ => pre.length + 1 }

/-- Modelled from the spec: optional values as a presence byte followed
by the payload. -/
def optC {α : Type} (pre : List Nat) (c : Codec α) : Codec (Option α) :=
  { enc := fun x =>
      match x with
      | none => pre ++ [0]
      | some a => pre ++ [1] ++ c.enc a
    dec := fun bs =>
      match bs.dropPrefix? pre with
      | none => none
      | some r =>
        match r with
        | 0 :: r2 => some (none, r2)
        | 1 :: r2 =>
          match c.dec r2 with
          | none => none
          | some (a, r3) => some (some a, r3)
        | _ => none
    len := fun x =>
      match x with
      | none => pre.length + 1
      | some a => pre.length + 1 + c.len a }

/-- Decode a fixed number of consecutive elements. -/
def decElems {α : Type} (c : Codec α) : Nat → List Nat → Option (List α × List Nat)
  | 0, bs => some ([], bs)
  | n + 1, bs =>
    match c.dec bs with
    | none => none
    | some (x, r) =>
      match decElems c n r with
      | none => none
      | some (xs, r2) => some (x :: xs, r2)

/-- Modelled from the spec: ordered collections as a variable-length-
encoded element count followed by the elements in sequence. -/
def listC {α : Type} (pre : List Nat) (c : Codec α) : Codec (List α) :=
  { enc := fun l => pre ++ writeLengthT l.length ++ (l.map c.enc).join
    dec := fun bs =>
      match bs.dropPrefix? pre with
      | none => none
      | some r =>
        match readLength r with
        | none => none
        | some (n, _, r2) => decElems c n r2
    len := fun l =>
      pre.length + (writeLengthT l.length).length + (l.map c.len).sum }

/-- UTF-8 encoding of one scalar value. -/
def charUtf8 (c : Char) : List Nat :=
  let n := c.toNat
  if n < 128 then [n]
  else if n < 2048 then [192 + n / 64, 128 + n % 64]
  else if n < 65536 then [224 + n / 4096, 128 + n / 64 % 64, 128 + n % 64]
  else [240 + n / 262144, 128 + n / 4096 % 64, 128 + n / 64 % 64, 128 + n % 64]

/-- UTF-8 decoding of one scalar value. -/
def readUtf8Char : List Nat → Option (Nat × List Nat)
  | [] => none
  | b :: r =>
    if b < 128 then some (b, r)
    else if b < 224 then
      match r with
      | b1 :: r1 => some ((b - 192) * 64 + (b1 - 128), r1)
      | _ => none
    else if b < 240 then
      match r with
      | b1 :: b2 :: r2 =>
        some ((b - 224) * 4096 + (b1 - 128) * 64 + (b2 - 128), r2)
      | _ => none
    else
      match r with
      | b1 :: b2 :: b3 :: r3 =>
        some ((b - 240) * 262144 + (b1 - 128) * 4096 + (b2 - 128) * 64 +
          (b3 - 128), r3)
      | _ => none

/-- Decode a whole byte region into scalar values (the fuel bounds the
number of characters; one byte per character suffices). -/
def readUtf8Chars : Nat → List Nat → Option (List Char)
  | _, [] => some []
  | 0, _ :: _ => none
  | fuel + 1, b :: r =>
    match readUtf8Char (b :: r) with
    | none => none
    | some (n, r1) =>
      match readUtf8Chars fuel r1 with
      | none => none
      | some cs => some (Char.ofNat n :: cs)

def utf8Bytes (s : String) : List Nat := (s.data.map charUtf8).join

/-- Modelled from the spec: strings as a variable-length-encoded UTF-8
byte count followed by the bytes. -/
def stringC (pre : List Nat) : Codec String :=
  { enc := fun s => pre ++ writeLengthT (utf8Bytes s).length ++ utf8Bytes s
    dec := fun bs =>
      match bs.dropPrefix? pre with
      | none => none
      | some r =>
        match readLength r with
        | none => none
        | some (n, _, r2) =>
          if n ≤ r2.length then
            match readUtf8Chars n (r2.take n) with
            | none => none
            | some cs => some (String.mk cs, r2.drop n)
          else none
    len := fun s =>
      pre.length + (writeLengthT (utf8Bytes s).length).length +
        (utf8Bytes s).length }

/-- Two values in sequence (consecutive struct fields). -/
def prodC {α β : Type} (ca : Codec α) (cb : Codec β) : Codec (α × β) :=
  { enc := fun x => ca.enc x.1 ++ cb.enc x.2
    dec := fun bs =>
      match ca.dec bs with
      | none => none
      | some (a, r) =>
        match cb.dec r with
        | none => none
        | some (b, r2) => some ((a, b), r2)
    len := fun x => ca.len x.1 + cb.len x.2 }

/-- Transport a codec along a retraction (struct from its field tuple). -/
def isoC {α β : Type} (f : α → β) (g : β → α) (c : Codec α) : Codec β :=
  { enc := fun b => c.enc (g b)
    dec := fun bs =>
      match c.dec bs with
      | none => none
      | some (a, r) => some (f a, r)
    len := fun b => c.len (g b) }

/-- The associative-map codec of tls.rs as a `Codec` (the serializer's
length error cannot occur on valid values, where the content length is
below `2^62`). -/
def mapC {K V : Type} [LinearOrder K] (pre : List Nat) (ck : Codec K)
    (cv : Codec V) : Codec (List (K × V)) :=
  { enc := fun m =>
      pre ++ (mapSerialize ck cv m).getD []
    dec := fun bs =>
      match bs.dropPrefix? pre with
      | none => none
      | some r =>
        match mapDeserialize ck cv r with
        | some (some x) => some x
        | _ => none
    len := fun m =>
      pre.length + (writeLengthT (mapContentLen ck cv m)).length +
        mapContentLen ck cv m }

def roleKey_injective : Function.Injective roleKey := by
  intro a b h
  cases a <;> cases b <;> simp [roleKey] at h ⊢ <;> omega

instance : LinearOrder RoleIndex := LinearOrder.lift' roleKey roleKey_injective

/-- Modelled from the spec (enum encodings are unspecified there): a
discriminant byte, with the `Custom` payload as a two-byte big-endian
`u16`. -/
def roleIndexC (pre : List Nat) : Codec RoleIndex :=
  { enc := fun r =>
      match r with
      | .Outsider => pre ++ [0]
      | .Restricted => pre ++ [1]
      | .Regular => pre ++ [2]
      | .Moderator => pre ++ [3]
      | .Admin => pre ++ [4]
      | .Owner => pre ++ [5]
      | .Custom n => pre ++ [6, n / 256 % 256, n % 256]
    dec := fun bs =>
      match bs.dropPrefix? pre with
      | none => none
      | some r =>
        match r with
        | 0 :: r2 => some (.Outsider, r2)
        | 1 :: r2 => some (.Restricted, r2)
        | 2 :: r2 => some (.Regular, r2)
        | 3 :: r2 => some (.Moderator, r2)
        | 4 :: r2 => some (.Admin, r2)
        | 5 :: r2 => some (.Owner, r2)
        | 6 :: b0 :: b1 :: r2 => some (.Custom (b0 * 256 + b1), r2)
        | _ => none
    len := fun r =>
      match r with
      | .Custom _ => pre.length + 3
      | _ => pre.length + 1 }

/-- Modelled from the spec: a discriminant byte. -/
def messageTypeC (pre : List Nat) : Codec MessageType :=
  { enc := fun t =>
      match t with
      | .Reaction => pre ++ [0]
      | .Text => pre ++ [1]
      | .Image => pre ++ [2]
      | .Audio => pre ++ [3]
      | .Voice => pre ++ [4]
      | .Video => pre ++ [5]
      | .File => pre ++ [6]
      | .ControlConference => pre ++ [7]
    dec := fun bs =>
      match bs.dropPrefix? pre with
      | none => none
      | some r =>
        match r with
        | 0 :: r2 => some (.Reaction, r2)
        | 1 :: r2 => some (.Text, r2)
        | 2 :: r2 => some (.Image, r2)
        | 3 :: r2 => some (.Audio, r2)
        | 4 :: r2 => some (.Voice, r2)
        | 5 :: r2 => some (.Video, r2)
        | 6 :: r2 => some (.File, r2)
        | 7 :: r2 => some (.ControlConference, r2)
        | _ => none
    len := fun _ => pre.length + 1 }

/-- Modelled from the spec: a discriminant byte (the `repr` values 0, 1,
2 of `Optionality`). -/
def optionalityC (pre : List Nat) : Codec Optionality :=
  { enc := fun o =>
      match o with
      | .Optional => pre ++ [0]
      | .Required => pre ++ [1]
      | .Forbidden => pre ++ [2]
    dec := fun bs =>
      match bs.dropPrefix? pre with
      | none => none
      | some r =>
        match r with
        | 0 :: r2 => some (.Optional, r2)
        | 1 :: r2 => some (.Required, r2)
        | 2 :: r2 => some (.Forbidden, r2)
        | _ => none
    len := fun _ => pre.length + 1 }

/-- Modelled from the spec: a discriminant byte in variant order, then
the payload. -/
def capabilityC (pre : List Nat) (cr : Codec RoleIndex)
    (cm : Codec MessageType) : Codec Capability :=
  { enc := fun c =>
      match c with
      | .Knock => pre ++ [0]
      | .Kick => pre ++ [1]
      | .Ban => pre ++ [2]
      | .GiveRoleOther r => pre ++ [3] ++ cr.enc r
      | .DropRoleOther r => pre ++ [4] ++ cr.enc r
      | .GiveRoleSelf r => pre ++ [5] ++ cr.enc r
      | .IgnoreRatelimit => pre ++ [6]
      | .SendMessage t => pre ++ [7] ++ cm.enc t
      | .EditMessageOther => pre ++ [8]
      | .EditMessageSelf => pre ++ [9]
      | .DeleteMessageOther => pre ++ [10]
      | .DeleteMessageSelf => pre ++ [11]
    dec := fun bs =>
      match bs.dropPrefix? pre with
      | none => none
      | some r =>
        match r with
        | [] => none
        | b :: r2 =>
          if b = 0 then some (.Knock, r2)
          else if b = 1 then some (.Kick, r2)
          else if b = 2 then some (.Ban, r2)
          else if b = 3 then
            match cr.dec r2 with
            | none => none
            | some (ri, r3) => some (.GiveRoleOther ri, r3)
          else if b = 4 then
            match cr.dec r2 with
            | none => none
            | some (ri, r3) => some (.DropRoleOther ri, r3)
          else if b = 5 then
            match cr.dec r2 with
            | none => none
            | some (ri, r3) => some (.GiveRoleSelf ri, r3)
          else if b = 6 then some (.IgnoreRatelimit, r2)
          else if b = 7 then
            match cm.dec r2 with
            | none => none
            | some (t, r3) => some (.SendMessage t, r3)
          else if b = 8 then some (.EditMessageOther, r2)
          else if b = 9 then some (.EditMessageSelf, r2)
          else if b = 10 then some (.DeleteMessageOther, r2)
          else if b = 11 then some (.DeleteMessageSelf, r2)
          else none
    len := fun c =>
      match c with
      | .GiveRoleOther r => pre.length + 1 + cr.len r
      | .DropRoleOther r => pre.length + 1 + cr.len r
      | .GiveRoleSelf r => pre.length + 1 + cr.len r
      | .SendMessage t => pre.length + 1 + cm.len t
      | _ => pre.length + 1 }

/-- Modelled from the spec: `RoleInfo` as its fields in declaration
order. -/
def roleInfoC (m : Bool) : Codec RoleInfo :=
  isoC
    (fun x => ⟨x.1, x.2.1, x.2.2.1, x.2.2.2.1, x.2.2.2.2.1, x.2.2.2.2.2⟩)
    (fun i => (i.role_name, (i.role_description, (i.role_capabilities,
      (i.dependencies, (i.min, i.max))))))
    (prodC (stringC (preO m 5))
      (prodC (stringC (preO m 5))
        (prodC (listC (preO m 6)
            (capabilityC (preO m 4) (roleIndexC (preO m 1))
              (messageTypeC (preO m 2))))
          (prodC (listC (preO m 6) (roleIndexC (preO m 1)))
            (prodC (u32C (preO m 7))
              (optC (preO m 8) (u32C (preO m 7))))))))

/-- Modelled from the spec: `RoomPolicy` as its fields in declaration
order, the role table through the implemented map codec in sorted key
order. -/
def roomPolicyC (m : Bool) : Codec RoomPolicy :=
  isoC
    (fun x => ⟨x.1, x.2.1, x.2.2.1, x.2.2.2.1, x.2.2.2.2.1, x.2.2.2.2.2⟩)
    (fun p => (p.roles, (p.parent_room, (p.password_protected,
      (p.delivery_notifications, (p.read_receipts, p.pseudonymous_ids))))))
    (prodC (mapC (preO m 9) (roleIndexC (preO m 1)) (roleInfoC m))
      (prodC (optC (preO m 8) (stringC (preO m 5)))
        (prodC (optC (preO m 8) (stringC (preO m 5)))
          (prodC (optionalityC (preO m 3))
            (prodC (optionalityC (preO m 3)) (boolC (preO m 10)))))))

/-- Modelled from the spec: `BanInfo` as its fields in declaration
order. -/
def banInfoC (m : Bool) : Codec BanInfo :=
  isoC
    (fun x => ⟨x.1, x.2.1, x.2.2⟩)
    (fun b => (b.creator, (b.reason, b.until_)))
    (prodC (stringC (preO m 5))
      (prodC (stringC (preO m 5)) (optC (preO m 8) (u32C (preO m 7)))))

/-- Modelled from the spec: `RoomState` as its fields in declaration
order; the membership and ban maps through the implemented map codec,
role sets as element-count-prefixed lists. -/
def roomStateC (m : Bool) : Codec RoomState :=
  isoC
    (fun x => ⟨x.1, x.2.1, x.2.2⟩)
    (fun s => (s.policy, (s.user_roles, s.users_banned)))
    (prodC (roomPolicyC m)
      (prodC (mapC (preO m 9) (stringC (preO m 5))
          (listC (preO m 6) (roleIndexC (preO m 1))))
        (mapC (preO m 9) (stringC (preO m 5)) (banInfoC m))))

/-- Modelled from the spec: `VerifiedRoomState` is a transparent wrapper
around `RoomState` and shares its encoding. -/
def verifiedRoomStateC (m : Bool) : Codec VerifiedRoomState :=
  isoC VerifiedRoomState.mk (fun v => v.state) (roomStateC m)

/-- The variable-length length encoding's bound. -/
def LMAX : Nat := 4611686018427387904

def RoleIndexValid : RoleIndex → Prop
  | .Custom n => n < 65536
  | _ => True

def CapabilityValid : Capability → Prop
  | .GiveRoleOther r => RoleIndexValid r
  | .DropRoleOther r => RoleIndexValid r
  | .GiveRoleSelf r => RoleIndexValid r
  | _ => True

def StrValid (s : String) : Prop := (utf8Bytes s).length < LMAX

def RoleInfoValid (i : RoleInfo) : Prop :=
  StrValid i.role_name ∧ StrValid i.role_description ∧
  i.role_capabilities.length < LMAX ∧
  (∀ c ∈ i.role_capabilities, CapabilityValid c) ∧
  i.dependencies.length < LMAX ∧
  (∀ r ∈ i.dependencies, RoleIndexValid r) ∧
  i.min < 4294967296 ∧
  (∀ mx, i.max = some mx → mx < 4294967296)

def RoomPolicyValid (m : Bool) (p : RoomPolicy) : Prop :=
  List.Pairwise (fun a b => a.1 < b.1) p.roles ∧
  (∀ kv ∈ p.roles, RoleIndexValid kv.1 ∧ RoleInfoValid kv.2) ∧
  mapContentLen (roleIndexC (preO m 1)) (roleInfoC m) p.roles < LMAX ∧
  (∀ s, p.parent_room = some s → StrValid s) ∧
  (∀ s, p.password_protected = some s → StrValid s)

def BanInfoValid (b : BanInfo) : Prop :=
  StrValid b.creator ∧ StrValid b.reason ∧
  (∀ t, b.until_ = some t → t < 4294967296)

def RoomStateValid (m : Bool) (s : RoomState) : Prop :=
  RoomPolicyValid m s.policy ∧
  List.Pairwise (fun a b => a.1 < b.1) s.user_roles ∧
  (∀ kv ∈ s.user_roles, StrValid kv.1 ∧ kv.2.length < LMAX ∧
    ∀ r ∈ kv.2, RoleIndexValid r) ∧
  mapContentLen (stringC (preO m 5))
    (listC (preO m 6) (roleIndexC (preO m 1))) s.user_roles < LMAX ∧
  List.Pairwise (fun a b => a.1 < b.1) s.users_banned ∧
  (∀ kv ∈ s.users_banned, StrValid kv.1 ∧ BanInfoValid kv.2) ∧
  mapContentLen (stringC (preO m 5)) (banInfoC m) s.users_banned < LMAX

def VerifiedRoomStateValid (m : Bool) (v : VerifiedRoomState) : Prop :=
  RoomStateValid m v.state

/-- A concrete policy the round-trip witness evaluates: no roles, no
parent room, no password. -/
def wirePolicyExample : RoomPolicy :=
  { roles := []
    parent_room := none
    password_protected := none
    delivery_notifications := .Optional
    read_receipts := .Optional
    pseudonymous_ids := false }

/-- A concrete room state the round-trip witness evaluates. -/
def wireStateExample : RoomState :=
  { policy := wirePolicyExample
    user_roles := []
    users_banned := [] }

/-- The concrete verified room state the round-trip witness evaluates. -/
def wireVerifiedExample : VerifiedRoomState := ⟨wireStateExample⟩

end MimiRoomPolicy

-- ===================================================================
-- Theorems
-- ===================================================================

namespace MimiRoomPolicy

theorem okOrErr.noAbort {α : Type} {r : Res α} (h : okOrErr r) :
    r ≠ .error .panicked := by
  rcases h with ⟨e, rfl⟩ | ⟨a, rfl⟩ <;> simp

theorem okOrErr_isMod (s : RoomState) (u : String) : okOrErr (isMod s u) := by
  unfold isMod
  cases alGet s.user_roles u
  · exact .inl ⟨_, rfl⟩
  · exact .inr ⟨_, rfl⟩

theorem okOrErr_isAdmin (s : RoomState) (u : String) : okOrErr (isAdmin s u) := by
  unfold isAdmin
  cases alGet s.user_roles u
  · exact .inr ⟨_, rfl⟩
  · exact .inr ⟨_, rfl⟩

theorem isAdmin_ok (s : RoomState) (u : String) : ∃ b, isAdmin s u = .ok b := by
  unfold isAdmin
  cases alGet s.user_roles u <;> exact ⟨_, rfl⟩

theorem okOrErr_isOwner (s : RoomState) (u : String) : okOrErr (isOwner s u) := by
  unfold isOwner
  cases alGet s.user_roles u
  · exact .inl ⟨_, rfl⟩
  · exact .inr ⟨_, rfl⟩

theorem okOrErr_isProtectedFrom (s : RoomState) (actor target : String) :
    okOrErr (isProtectedFrom s actor target) := by
  unfold isProtectedFrom
  split
  · exact .inr ⟨_, rfl⟩
  rcases okOrErr_isOwner s target with ⟨e, heq⟩ | ⟨b, heq⟩
  · rw [heq]; exact .inl ⟨_, rfl⟩
  rw [heq]
  cases b
  case _ =>
    rcases okOrErr_isAdmin s target with ⟨e2, h2⟩ | ⟨b2, h2⟩
    · rw [h2]; exact .inl ⟨_, rfl⟩
    rw [h2]
    cases b2
    case _ =>
      rcases okOrErr_isMod s target with ⟨e3, h3⟩ | ⟨b3, h3⟩
      · rw [h3]; exact .inl ⟨_, rfl⟩
      rw [h3]
      cases b3
      · exact .inr ⟨_, rfl⟩
      · exact okOrErr_isAdmin s actor
    case _ =>
      rcases okOrErr_isOwner s actor with ⟨e3, h3⟩ | ⟨b3, h3⟩
      · rw [h3]; exact .inl ⟨_, rfl⟩
      rw [h3]
      cases b3
      · exact .inr ⟨_, rfl⟩
      · rcases okOrErr_isMod s target with ⟨e4, h4⟩ | ⟨b4, h4⟩
        · rw [h4]; exact .inl ⟨_, rfl⟩
        · rw [h4]
          cases b4
          · exact .inr ⟨_, rfl⟩
          · exact okOrErr_isAdmin s actor
  case _ => exact .inr ⟨_, rfl⟩

theorem okOrErr_capsOfRoles (p : RoomPolicy) (rs : List RoleIndex) :
    okOrErr (capsOfRoles p rs) := by
  induction rs with
  | nil => exact .inr ⟨_, rfl⟩
  | cons r rest ih =>
    unfold capsOfRoles
    cases alGet p.roles r
    · exact .inl ⟨_, rfl⟩
    · rcases ih with ⟨e, h⟩ | ⟨a, h⟩ <;> simp only [h]
      · exact .inl ⟨_, rfl⟩
      · exact .inr ⟨_, rfl⟩

theorem okOrErr_userExplicitCapabilities (s : RoomState) (u : String) :
    okOrErr (userExplicitCapabilities s u) :=
  okOrErr_capsOfRoles s.policy _

theorem okOrErr_isCapable (s : RoomState) (u : String) (c : Capability) :
    okOrErr (isCapable s u c) := by
  unfold isCapable
  rcases okOrErr_userExplicitCapabilities s u with ⟨e, h⟩ | ⟨caps, h⟩ <;> simp only [h]
  · exact .inl ⟨_, rfl⟩
  · split
    · exact .inr ⟨_, rfl⟩
    · exact okOrErr_isAdmin s u

theorem okOrErr_giveUserRole (s : RoomState) (u : String) (r : RoleIndex) :
    okOrErr (giveUserRole s u r) := by
  unfold giveUserRole
  cases h : alGet s.user_roles u <;> simp only [h]
  · exact .inr ⟨_, rfl⟩
  · split
    · exact .inl ⟨_, rfl⟩
    · exact .inr ⟨_, rfl⟩

theorem okOrErr_dropUserRole (s : RoomState) (u : String) (r : RoleIndex) :
    okOrErr (dropUserRole s u r) := by
  unfold dropUserRole
  cases h : alGet s.user_roles u <;> simp only [h]
  · exact .inl ⟨_, rfl⟩
  · split
    · exact .inr ⟨_, rfl⟩
    · exact .inl ⟨_, rfl⟩

theorem okOrErr_dropAllRoles (target : String) (roles : List RoleIndex) :
    ∀ s, okOrErr (dropAllRoles s target roles) := by
  induction roles with
  | nil => exact fun s => .inr ⟨_, rfl⟩
  | cons r rest ih =>
    intro s
    unfold dropAllRoles
    rcases okOrErr_dropUserRole s target r with ⟨e, h⟩ | ⟨s', h⟩ <;> simp only [h]
    · exact .inl ⟨_, rfl⟩
    · exact ih s'

theorem okOrErr_applyAction (s : RoomState) (u : String) (a : Action)
    (h1 : a ≠ .Knock) (h2 : a ≠ .ChangePolicyProperty) :
    okOrErr (applyAction s u a) := by
  cases a with
  | Knock => exact absurd rfl h1
  | ChangePolicyProperty => exact absurd rfl h2
  | Kick target =>
    unfold applyAction
    have hg : okOrErr (if u ≠ target then
        match isCapable s u .Kick with
        | .error e => .error e
        | .ok c => .ok (!c)
      else (.ok false : Res Bool)) := by
      split
      · rcases okOrErr_isCapable s u .Kick with ⟨e, h⟩ | ⟨b, h⟩ <;> simp only [h]
        · exact .inl ⟨_, rfl⟩
        · exact .inr ⟨_, rfl⟩
      · exact .inr ⟨_, rfl⟩
    rcases hg with ⟨e, h⟩ | ⟨b, h⟩ <;> simp only [h]
    · exact .inl ⟨_, rfl⟩
    · cases b
      · rcases okOrErr_isProtectedFrom s u target with ⟨e2, hp⟩ | ⟨b2, hp⟩ <;>
          simp only [hp]
        · exact .inl ⟨_, rfl⟩
        · cases b2
          · cases h3 : alGet s.user_roles target <;> simp only [h3]
            · exact .inl ⟨_, rfl⟩
            · exact okOrErr_dropAllRoles _ _ _
          · exact .inl ⟨_, rfl⟩
      · exact .inl ⟨_, rfl⟩
  | Ban target reason until_ =>
    unfold applyAction
    have hg : okOrErr (if u = target then (.ok true : Res Bool)
        else
          match isCapable s u .Ban with
          | .error e => .error e
          | .ok c => .ok (!c)) := by
      split
      · exact .inr ⟨_, rfl⟩
      · rcases okOrErr_isCapable s u .Ban with ⟨e, h⟩ | ⟨b, h⟩ <;> simp only [h]
        · exact .inl ⟨_, rfl⟩
        · exact .inr ⟨_, rfl⟩
    rcases hg with ⟨e, h⟩ | ⟨b, h⟩ <;> simp only [h]
    · exact .inl ⟨_, rfl⟩
    · cases b
      · rcases okOrErr_isProtectedFrom s u target with ⟨e2, hp⟩ | ⟨b2, hp⟩ <;>
          simp only [hp]
        · exact .inl ⟨_, rfl⟩
        · cases b2
          · cases h3 : alGet s.user_roles target <;> simp only [h3]
            · exact .inl ⟨_, rfl⟩
            · rename_i roles
              rcases okOrErr_dropAllRoles target roles s with ⟨e4, h4⟩ | ⟨s4, h4⟩ <;>
                simp only [h4]
              · exact .inl ⟨_, rfl⟩
              · exact .inr ⟨_, rfl⟩
          · exact .inl ⟨_, rfl⟩
      · exact .inl ⟨_, rfl⟩
  | GiveRole target role =>
    unfold applyAction
    have hg : okOrErr (if target = u then isCapable s u (.GiveRoleSelf role)
        else (.ok false : Res Bool)) := by
      split
      · exact okOrErr_isCapable s u _
      · exact .inr ⟨_, rfl⟩
    rcases hg with ⟨e, h⟩ | ⟨vs, h⟩ <;> simp only [h]
    · exact .inl ⟨_, rfl⟩
    · rcases okOrErr_isCapable s u (.GiveRoleOther role) with ⟨e2, h2⟩ | ⟨vo, h2⟩ <;>
        simp only [h2]
      · exact .inl ⟨_, rfl⟩
      · split
        · exact .inl ⟨_, rfl⟩
        · exact okOrErr_giveUserRole s target role
  | DropRole target role =>
    unfold applyAction
    have hg : okOrErr (match isCapable s u (.DropRoleOther role) with
        | .error e => .error e
        | .ok false => .ok false
        | .ok true =>
          match isProtectedFrom s u target with
          | .error e => .error e
          | .ok p => (.ok (!p) : Res Bool)) := by
      rcases okOrErr_isCapable s u (.DropRoleOther role) with ⟨e, h⟩ | ⟨b, h⟩ <;>
        simp only [h]
      · exact .inl ⟨_, rfl⟩
      · cases b
        · exact .inr ⟨_, rfl⟩
        · rcases okOrErr_isProtectedFrom s u target with ⟨e2, h2⟩ | ⟨p, h2⟩ <;>
            simp only [h2]
          · exact .inl ⟨_, rfl⟩
          · exact .inr ⟨_, rfl⟩
    rcases hg with ⟨e, h⟩ | ⟨vo, h⟩ <;> simp only [h]
    · exact .inl ⟨_, rfl⟩
    · split
      · exact .inl ⟨_, rfl⟩
      · exact okOrErr_dropUserRole s target role
  | SendMessage mt =>
    unfold applyAction
    rcases okOrErr_isCapable s u (.SendMessage mt) with ⟨e, h⟩ | ⟨b, h⟩ <;> simp only [h]
    · exact .inl ⟨_, rfl⟩
    · cases b
      · exact .inl ⟨_, rfl⟩
      · exact .inr ⟨_, rfl⟩
  | EditMessage target =>
    unfold applyAction
    have hg : okOrErr (if target = u then isCapable s u .EditMessageSelf
        else (.ok false : Res Bool)) := by
      split
      · exact okOrErr_isCapable s u _
      · exact .inr ⟨_, rfl⟩
    rcases hg with ⟨e, h⟩ | ⟨vs, h⟩ <;> simp only [h]
    · exact .inl ⟨_, rfl⟩
    · have hg2 : okOrErr (match isCapable s u .EditMessageOther with
          | .error e => .error e
          | .ok false => .ok false
          | .ok true =>
            match isProtectedFrom s u target with
            | .error e => .error e
            | .ok p => (.ok (!p) : Res Bool)) := by
        rcases okOrErr_isCapable s u .EditMessageOther with ⟨e, h'⟩ | ⟨b, h'⟩ <;>
          simp only [h']
        · exact .inl ⟨_, rfl⟩
        · cases b
          · exact .inr ⟨_, rfl⟩
          · rcases okOrErr_isProtectedFrom s u target with ⟨e2, h2⟩ | ⟨p, h2⟩ <;>
              simp only [h2]
            · exact .inl ⟨_, rfl⟩
            · exact .inr ⟨_, rfl⟩
      rcases hg2 with ⟨e, h'⟩ | ⟨vo, h'⟩ <;> simp only [h']
      · exact .inl ⟨_, rfl⟩
      · split
        · exact .inl ⟨_, rfl⟩
        · exact .inr ⟨_, rfl⟩
  | DeleteMessage target =>
    unfold applyAction
    have hg : okOrErr (if target = u then isCapable s u .DeleteMessageSelf
        else (.ok false : Res Bool)) := by
      split
      · exact okOrErr_isCapable s u _
      · exact .inr ⟨_, rfl⟩
    rcases hg with ⟨e, h⟩ | ⟨vs, h⟩ <;> simp only [h]
    · exact .inl ⟨_, rfl⟩
    · have hg2 : okOrErr (match isCapable s u .DeleteMessageOther with
          | .error e => .error e
          | .ok false => .ok false
          | .ok true =>
            match isProtectedFrom s u target with
            | .error e => .error e
            | .ok p => (.ok (!p) : Res Bool)) := by
        rcases okOrErr_isCapable s u .DeleteMessageOther with ⟨e, h'⟩ | ⟨b, h'⟩ <;>
          simp only [h']
        · exact .inl ⟨_, rfl⟩
        · cases b
          · exact .inr ⟨_, rfl⟩
          · rcases okOrErr_isProtectedFrom s u target with ⟨e2, h2⟩ | ⟨p, h2⟩ <;>
              simp only [h2]
            · exact .inl ⟨_, rfl⟩
            · exact .inr ⟨_, rfl⟩
      rcases hg2 with ⟨e, h'⟩ | ⟨vo, h'⟩ <;> simp only [h']
      · exact .inl ⟨_, rfl⟩
      · split
        · exact .inl ⟨_, rfl⟩
        · exact .inr ⟨_, rfl⟩
  | ChangePolicyRole target action =>
    unfold applyAction
    rcases isAdmin_ok s u with ⟨b, h⟩
    simp only [h]
    cases b
    · exact .inl ⟨_, rfl⟩
    · cases action with
      | New info =>
        simp only []
        split
        · exact .inl ⟨_, rfl⟩
        · exact .inr ⟨_, rfl⟩
      | Remove =>
        simp only []
        split
        · exact .inl ⟨_, rfl⟩
        · exact .inr ⟨_, rfl⟩
      | ChangeName v =>
        simp only []
        cases hg : alGet s.policy.roles target <;> simp only [hg]
        · exact .inl ⟨_, rfl⟩
        · split
          · exact .inl ⟨_, rfl⟩
          · exact .inr ⟨_, rfl⟩
      | ChangeDescription v =>
        simp only []
        cases hg : alGet s.policy.roles target <;> simp only [hg]
        · exact .inl ⟨_, rfl⟩
        · split
          · exact .inl ⟨_, rfl⟩
          · exact .inr ⟨_, rfl⟩
      | AddCapability c =>
        simp only []
        cases hg : alGet s.policy.roles target <;> simp only [hg]
        · exact .inl ⟨_, rfl⟩
        · split
          · exact .inl ⟨_, rfl⟩
          · exact .inr ⟨_, rfl⟩
      | RemoveCapability c =>
        simp only []
        cases hg : alGet s.policy.roles target <;> simp only [hg]
        · exact .inl ⟨_, rfl⟩
        · split
          · exact .inl ⟨_, rfl⟩
          · exact .inr ⟨_, rfl⟩
      | AddDependency d =>
        simp only []
        cases hg : alGet s.policy.roles target <;> simp only [hg]
        · exact .inl ⟨_, rfl⟩
        · split
          · exact .inl ⟨_, rfl⟩
          · exact .inr ⟨_, rfl⟩
      | RemoveDependency d =>
        simp only []
        cases hg : alGet s.policy.roles target <;> simp only [hg]
        · exact .inl ⟨_, rfl⟩
        · split
          · exact .inl ⟨_, rfl⟩
          · exact .inr ⟨_, rfl⟩
      | SetMin v =>
        simp only []
        cases hg : alGet s.policy.roles target <;> simp only [hg]
        · exact .inl ⟨_, rfl⟩
        · split
          · exact .inl ⟨_, rfl⟩
          · exact .inr ⟨_, rfl⟩
      | SetMax v =>
        simp only []
        cases hg : alGet s.policy.roles target <;> simp only [hg]
        · exact .inl ⟨_, rfl⟩
        · split
          · exact .inl ⟨_, rfl⟩
          · exact .inr ⟨_, rfl⟩

theorem okOrErr_applyActions (u : String) (acts : List Action)
    (hk : ∀ a ∈ acts, a ≠ Action.Knock ∧ a ≠ Action.ChangePolicyProperty) :
    ∀ s, okOrErr (applyActions u s acts) := by
  induction acts with
  | nil => exact fun s => .inr ⟨_, rfl⟩
  | cons a rest ih =>
    intro s
    unfold applyActions
    have ha := hk a (by simp)
    rcases okOrErr_applyAction s u a ha.1 ha.2 with ⟨e, h⟩ | ⟨s', h⟩ <;> simp only [h]
    · exact .inl ⟨_, rfl⟩
    · exact ih (fun x hx => hk x (List.mem_cons_of_mem a hx)) s'

end MimiRoomPolicy

namespace MimiRoomPolicy

/-- C5 (counterexample): `try_make_actions` does not return a `Result`
for `Action::Knock` — it reaches `todo!` and aborts, here at a concrete
verified three-member room with a non-banned actor. -/
theorem knock_reaches_todo :
    tryMakeActions stModAdmin "o" [Action.Knock] = .error .panicked := by
  decide

/-- C5 (amended): `try_make_actions` returns a `Result` (it reaches no
`assert!`/`todo!`) for every room state, actor and non-empty batch,
provided no action in the batch is `Knock` or `ChangePolicyProperty` and
the actor's ban entry, if any, is permanent (`until = None`); the
excluded cases reach `todo!` (timed bans, `Knock`,
`ChangePolicyProperty`) or the empty-batch `assert!`. -/
theorem try_make_actions_no_abort (s : RoomState) (u : String)
    (acts : List Action) (hne : acts ≠ [])
    (hk : ∀ a ∈ acts, a ≠ Action.Knock ∧ a ≠ Action.ChangePolicyProperty)
    (hban : ∀ b, alGet s.users_banned u = some b → b.until_ = none) :
    tryMakeActions s u acts ≠ .error .panicked := by
  cases acts with
  | nil => exact absurd rfl hne
  | cons a rest =>
    unfold tryMakeActions
    simp only [List.isEmpty_cons, Bool.false_eq_true, if_false]
    cases hb : alGet s.users_banned u
    case none =>
      simp only [hb]
      exact (okOrErr_applyActions u (a :: rest) hk s).noAbort
    case some b =>
      simp only [hb, hban b hb]
      simp

/-- C5 (witness for the amended theorem): a concrete send by the owner in
the three-member room is covered by the hypotheses and does not abort. -/
theorem try_make_actions_no_abort_witness :
    tryMakeActions stModAdmin "o" [Action.SendMessage MessageType.Text] ≠
      .error .panicked :=
  try_make_actions_no_abort stModAdmin "o" [Action.SendMessage MessageType.Text]
    (by decide)
    (by intro a ha; simp at ha; subst ha; exact ⟨by decide, by decide⟩)
    (by intro b hb; simp [alGet] at hb)

/-- C3: `make_actions` is atomic — whenever it returns an `Error` (from
the action loop or from the consistency verification), the caller's
verified state is unchanged. -/
theorem make_actions_atomic (v : VerifiedRoomState) (u : String)
    (acts : List Action) (e : Error) (hne : acts ≠ [])
    (h : (makeActions v u acts).1 = .error (.err e)) :
    (makeActions v u acts).2 = v := by
  unfold makeActions at *
  cases h1 : tryMakeActions v.state u acts with
  | error e' => simp [h1]
  | ok s' =>
    cases h2 : consistencyChecks s' with
    | error e' => simp [h1, h2]
    | ok v' => simp [h1, h2] at h

/-- C3 (witness): an unauthorized send in a fresh `Public` room fails
with `NotCapable` and leaves the verified state intact. -/
theorem make_actions_atomic_witness :
    (makeActions pubVerified "b" [Action.SendMessage MessageType.Image]).2 =
      pubVerified :=
  make_actions_atomic pubVerified "b" [Action.SendMessage MessageType.Image]
    .NotCapable (by decide) (by decide)

/-- C1: in the verified two-member room `stOwnerAdmin` (owner `"o"`,
admin-but-not-owner `"a"`), `is_protected_from("o", "a")` evaluates to
`Ok(true)`: the Admin is protected from the Owner, because `"a"` also
holds Moderator (dependency) and the clause
`is_mod(target) && is_admin(actor)` fires for the Owner, who also holds
Admin. This contradicts the function's own documentation ("Admins are
protected, except from the owner"). The Owner-target half of the
protection contract does hold at this state. -/
theorem owner_cannot_act_on_admin_eval :
    (consistencyChecks stOwnerAdmin).isOk = true ∧
    isProtectedFrom stOwnerAdmin "o" "a" = .ok true ∧
    isProtectedFrom stOwnerAdmin "a" "o" = .ok true := by
  decide

/-- C4: in the verified three-member room `stModAdmin`, the Moderator's
`EditMessage` against the Admin fails `NotCapable` as the scenario says,
but the Admin's `EditMessage` against the Moderator also fails
`NotCapable` (the scenario says it succeeds): the Moderator target is
protected from the Admin actor by the unnegated
`is_mod(target) && is_admin(actor)` clause, contradicting the
documentation "Moderators are protected, except from admins". -/
theorem edit_message_hierarchy_eval :
    (consistencyChecks stModAdmin).isOk = true ∧
    tryMakeActions stModAdmin "m" [Action.EditMessage "a"] =
      .error (.err .NotCapable) ∧
    tryMakeActions stModAdmin "a" [Action.EditMessage "m"] =
      .error (.err .NotCapable) := by
  decide

end MimiRoomPolicy

namespace MimiRoomPolicy

end MimiRoomPolicy

namespace MimiRoomPolicy

theorem mem_insertSorted {α : Type} (le : α → α → Bool) (a x : α) (l : List α) :
    x ∈ insertSorted le a l ↔ x = a ∨ x ∈ l := by
  induction l with
  | nil => simp [insertSorted]
  | cons b rest ih =>
    unfold insertSorted
    split
    · simp
    · simp [ih]
      tauto

theorem mem_insSort {α : Type} (le : α → α → Bool) (x : α) (l : List α) :
    x ∈ insSort le l ↔ x ∈ l := by
  induction l with
  | nil => simp [insSort]
  | cons a rest ih =>
    unfold insSort
    rw [mem_insertSorted, ih]
    simp

theorem mem_dedupAdj {α : Type} [DecidableEq α] (x : α) (l : List α) :
    x ∈ dedupAdj l ↔ x ∈ l := by
  induction l with
  | nil => simp [dedupAdj]
  | cons a rest ih =>
    match rest, ih with
    | [], _ => simp [dedupAdj]
    | b :: rest', ih =>
      unfold dedupAdj
      split
      · rename_i hab
        rw [ih]
        subst hab
        simp
      · simp [ih]

theorem roleCount_cons (x : String × List RoleIndex)
    (l : List (String × List RoleIndex)) (r : RoleIndex) :
    roleCount (x :: l) r =
      (if x.2.contains r = true then 1 else 0) + roleCount l r := by
  unfold roleCount
  rw [List.filter_cons]
  split
  · simp [Nat.add_comm]
  · simp

theorem roleCount_filter_nonempty (l : List (String × List RoleIndex))
    (r : RoleIndex) :
    roleCount (l.filter fun x => !x.2.isEmpty) r = roleCount l r := by
  induction l with
  | nil => rfl
  | cons x rest ih =>
    rw [List.filter_cons]
    by_cases hc : x.2.contains r = true
    · have hne : (!x.2.isEmpty) = true := by
        cases hx : x.2 with
        | nil => rw [hx] at hc; simp at hc
        | cons y ys => simp [hx]
      rw [if_pos hne, roleCount_cons, roleCount_cons, ih]
    · have hc' : x.2.contains r = false := by simpa using hc
      split
      · rw [roleCount_cons, roleCount_cons, ih]
      · rw [roleCount_cons, ih, hc']
        simp

end MimiRoomPolicy

namespace MimiRoomPolicy

theorem depsCheckRoles_ok {p : RoomPolicy} {held : List RoleIndex}
    {rs : List RoleIndex} (h : depsCheckRoles p held rs = .ok ()) :
    ∀ r ∈ rs, ∀ d ∈ depsOf p r, d ∈ held := by
  induction rs with
  | nil => simp
  | cons r rest ih =>
    unfold depsCheckRoles at h
    cases halg : alGet p.roles r with
    | none => simp only [halg] at h; simp at h
    | some info =>
      simp only [halg] at h
      split at h
      case _ hall =>
        intro r' hr' d hd
        rcases List.mem_cons.1 hr' with rfl | hr'
        · unfold depsOf at hd
          rw [halg] at hd
          have := List.all_eq_true.1 hall d hd
          simpa using this
        · exact ih h r' hr' d hd
      case _ => simp at h

theorem depsCheck_ok {p : RoomPolicy} {urs : List (String × List RoleIndex)}
    (h : depsCheck p urs = .ok ()) :
    ∀ ur ∈ urs, ∀ r ∈ ur.2, ∀ d ∈ depsOf p r, d ∈ ur.2 := by
  induction urs with
  | nil => simp
  | cons ur rest ih =>
    obtain ⟨u0, roles0⟩ := ur
    unfold depsCheck at h
    cases hu : depsCheckRoles p roles0 roles0 with
    | error e => simp only [hu] at h; simp at h
    | ok unit0 =>
      simp only [hu] at h
      intro x hx
      rcases List.mem_cons.1 hx with rfl | hx
      · exact depsCheckRoles_ok hu
      · exact ih h x hx

theorem checkOneRole_ok {c : Nat} {r : RoleIndex} {i i' : RoleInfo}
    (h : checkOneRole c r i = .ok i') :
    i' = canonInfo i ∧ i'.min ≤ c ∧ maxExceeded i'.max c = false := by
  unfold checkOneRole at h
  simp only [] at h
  cases hc : capCheckRole r (canonInfo i).role_capabilities with
  | error e => simp only [hc] at h; simp at h
  | ok u =>
    simp only [hc] at h
    split at h
    · simp at h
    split at h
    · simp at h
    split at h
    · simp at h
    split at h
    · simp at h
    split at h
    · simp at h
    case _ hmm =>
      cases h
      push_neg at hmm
      exact ⟨rfl, hmm.1, by simpa using hmm.2⟩

theorem checkRoles_get {ur : List (String × List RoleIndex)}
    {roles roles' : List (RoleIndex × RoleInfo)}
    (h : checkRoles ur roles = .ok roles') :
    ∀ r info', alGet roles' r = some info' →
      ∃ info, alGet roles r = some info ∧
        checkOneRole (roleCount ur r) r info = .ok info' := by
  induction roles generalizing roles' with
  | nil =>
    unfold checkRoles at h
    cases h
    simp [alGet]
  | cons ri rest ih =>
    obtain ⟨r0, i0⟩ := ri
    unfold checkRoles at h
    cases h1 : checkOneRole (roleCount ur r0) r0 i0 with
    | error e => simp only [h1] at h; simp at h
    | ok i0' =>
      simp only [h1] at h
      cases h2 : checkRoles ur rest with
      | error e => simp only [h2] at h; simp at h
      | ok rest' =>
        simp only [h2] at h
        cases h
        intro r info' hget
        unfold alGet at hget
        split at hget
        · rename_i heq
          cases hget
          exact ⟨i0, by unfold alGet; rw [if_pos heq], by rw [← heq]; exact h1⟩
        · rename_i hne
          obtain ⟨info, hi1, hi2⟩ := ih h2 r info' hget
          exact ⟨info, by unfold alGet; rw [if_neg hne]; exact hi1, hi2⟩

theorem checkRoles_mem {ur : List (String × List RoleIndex)}
    {roles roles' : List (RoleIndex × RoleInfo)}
    (h : checkRoles ur roles = .ok roles') :
    ∀ q ∈ roles', ∃ info, (q.1, info) ∈ roles ∧
      checkOneRole (roleCount ur q.1) q.1 info = .ok q.2 := by
  induction roles generalizing roles' with
  | nil =>
    unfold checkRoles at h
    cases h
    simp
  | cons ri rest ih =>
    obtain ⟨r0, i0⟩ := ri
    unfold checkRoles at h
    cases h1 : checkOneRole (roleCount ur r0) r0 i0 with
    | error e => simp only [h1] at h; simp at h
    | ok i0' =>
      simp only [h1] at h
      cases h2 : checkRoles ur rest with
      | error e => simp only [h2] at h; simp at h
      | ok rest' =>
        simp only [h2] at h
        cases h
        intro q hq
        rcases List.mem_cons.1 hq with rfl | hq
        · exact ⟨i0, List.mem_cons_self _ _, h1⟩
        · obtain ⟨info, hi1, hi2⟩ := ih h2 q hq
          exact ⟨info, List.mem_cons_of_mem _ hi1, hi2⟩

theorem banCheck_ok {ur : List (String × List RoleIndex)}
    {bans : List (String × BanInfo)} (h : banCheck ur bans = .ok ()) :
    ∀ ub ∈ bans, alGet ur ub.1 = none := by
  induction bans with
  | nil => simp
  | cons ub rest ih =>
    obtain ⟨u0, b0⟩ := ub
    unfold banCheck at h
    cases hu : b0.until_ with
    | some t => simp only [hu] at h; simp at h
    | none =>
      simp only [hu] at h
      split at h
      · simp at h
      case _ hnm =>
        intro x hx
        rcases List.mem_cons.1 hx with rfl | hx
        · simpa using hnm
        · exact ih h x hx

end MimiRoomPolicy

namespace MimiRoomPolicy

/-- C2: every state `consistency_checks` accepts — and hence every state
`make_actions` commits — satisfies the checked invariants: dependency
closure of every user's role set, the per-role `[min, max]` membership
bounds, ban exclusivity (every ban entry reaching `Ok` is permanent and
its user holds no roles), and no member with an empty role set. -/
theorem consistency_checks_invariants :
    (∀ s v, consistencyChecks s = .ok v → StateInvariants v.state) ∧
    (∀ w u acts w', makeActions w u acts = (.ok (), w') →
      StateInvariants w'.state) := by
  have part1 : ∀ s v, consistencyChecks s = .ok v → StateInvariants v.state := by
    intro s v h
    unfold consistencyChecks at h
    split at h
    · simp at h
    cases hd : depsCheck s.policy s.user_roles with
    | error e => simp only [hd] at h; simp at h
    | ok u0 =>
      simp only [hd] at h
      cases hr : checkRoles s.user_roles s.policy.roles with
      | error e => simp only [hr] at h; simp at h
      | ok roles' =>
        simp only [hr] at h
        cases hb : banCheck (s.user_roles.filter fun ur => !ur.2.isEmpty)
            s.users_banned with
        | error e => simp only [hb] at h; simp at h
        | ok u1 =>
          simp only [hb] at h
          cases h
          refine ⟨?_, ?_, ?_, ?_⟩
          · intro ur hur r hr' d hd'
            have hurs : ur ∈ s.user_roles := (List.mem_filter.1 hur).1
            have hd2 : d ∈ depsOf s.policy r := by
              unfold depsOf at hd' ⊢
              cases halg : alGet roles' r with
              | none => rw [halg] at hd'; simp at hd'
              | some info' =>
                rw [halg] at hd'
                obtain ⟨info, hi1, hi2⟩ := checkRoles_get hr r info' halg
                rw [hi1]
                obtain ⟨hcanon, -, -⟩ := checkOneRole_ok hi2
                subst hcanon
                have := (mem_dedupAdj _ _).1 hd'
                exact (mem_insSort _ _ _).1 this
            exact depsCheck_ok hd ur hurs r hr' d hd2
          · intro ri hri
            obtain ⟨info, hmem, hone⟩ := checkRoles_mem hr ri hri
            obtain ⟨hcanon, hmin, hmax⟩ := checkOneRole_ok hone
            rw [roleCount_filter_nonempty]
            exact ⟨hmin, hmax⟩
          · intro ub hub _
            exact banCheck_ok hb ub hub
          · intro ur hur
            have := (List.mem_filter.1 hur).2
            simpa using this
  refine ⟨part1, ?_⟩
  intro w u acts w' h
  unfold makeActions at h
  cases h1 : tryMakeActions w.state u acts with
  | error e => simp only [h1] at h; simp at h
  | ok s' =>
    simp only [h1] at h
    cases h2 : consistencyChecks s' with
    | error e => simp only [h2] at h; simp at h
    | ok v' =>
      simp only [h2] at h
      cases h
      exact part1 s' w' h2

theorem consistency_checks_invariants_witness :
    StateInvariants (verifiedOf stModAdmin).state :=
  consistency_checks_invariants.1 stModAdmin (verifiedOf stModAdmin) (by decide)

end MimiRoomPolicy

namespace MimiRoomPolicy

theorem alGet_cons_ne {K V : Type} [DecidableEq K] (k' k : K) (v' : V)
    (l : List (K × V)) (h : k' ≠ k) : alGet ((k', v') :: l) k = alGet l k := by
  conv_lhs => rw [alGet]
  rw [if_neg h]

theorem alGet_append_of_none {K V : Type} [DecidableEq K] {l : List (K × V)}
    {k : K} (h : alGet l k = none) (v : V) :
    alGet (l ++ [(k, v)]) k = some v := by
  induction l with
  | nil => simp [alGet]
  | cons x rest ih =>
    obtain ⟨k', v'⟩ := x
    by_cases hk : k' = k
    · exfalso
      unfold alGet at h
      rw [if_pos hk] at h
      cases h
    · rw [List.cons_append, alGet_cons_ne _ _ _ _ hk]
      apply ih
      unfold alGet at h
      rw [if_neg hk] at h
      exact h

theorem applyActions_nil (u : String) (s : RoomState) :
    applyActions u s [] = .ok s := rfl

/-- C7: `is_protected_from` evaluates `is_owner(target)` first, so for a
target absent from the membership map it propagates `UserNotInRoom`; a
`Kick` or `Ban` of an absent target by a capable, non-banned actor
therefore fails with `UserNotInRoom`, not `NotCapable`. -/
theorem protected_from_absent_target :
    (∀ (s : RoomState) (actor target : String), actor ≠ target →
      alGet s.user_roles target = none →
      isProtectedFrom s actor target = .error (.err .UserNotInRoom)) ∧
    (∀ (s : RoomState) (actor target : String), actor ≠ target →
      alGet s.user_roles target = none →
      alGet s.users_banned actor = none →
      isCapable s actor .Kick = .ok true →
      tryMakeActions s actor [Action.Kick target] =
        .error (.err .UserNotInRoom)) ∧
    (∀ (s : RoomState) (actor target reason : String) (u : Option Nat),
      actor ≠ target →
      alGet s.user_roles target = none →
      alGet s.users_banned actor = none →
      isCapable s actor .Ban = .ok true →
      tryMakeActions s actor [Action.Ban target reason u] =
        .error (.err .UserNotInRoom)) := by
  have hprot : ∀ (s : RoomState) (actor target : String), actor ≠ target →
      alGet s.user_roles target = none →
      isProtectedFrom s actor target = .error (.err .UserNotInRoom) := by
    intro s actor target hne habs
    unfold isProtectedFrom isOwner
    rw [if_neg hne]
    simp only [habs]
  refine ⟨hprot, ?_, ?_⟩
  · intro s actor target hne habs hban hcap
    unfold tryMakeActions applyActions applyAction
    simp only [List.isEmpty_cons, Bool.false_eq_true, if_false, hban,
      if_pos hne, hcap, Bool.not_true, hprot s actor target hne habs]
  · intro s actor target reason u hne habs hban hcap
    unfold tryMakeActions applyActions applyAction
    simp only [List.isEmpty_cons, Bool.false_eq_true, if_false, hban,
      if_neg hne, hcap, Bool.not_true, hprot s actor target hne habs]

theorem protected_from_absent_target_witness :
    isProtectedFrom stModAdmin "o" "x" = .error (.err .UserNotInRoom) ∧
    tryMakeActions stModAdmin "o" [Action.Kick "x"] =
      .error (.err .UserNotInRoom) ∧
    tryMakeActions stModAdmin "o" [Action.Ban "x" "spam" none] =
      .error (.err .UserNotInRoom) :=
  ⟨protected_from_absent_target.1 stModAdmin "o" "x" (by decide) (by decide),
   protected_from_absent_target.2.1 stModAdmin "o" "x" (by decide) (by decide)
     (by decide) (by decide),
   protected_from_absent_target.2.2 stModAdmin "o" "x" "spam" none (by decide)
     (by decide) (by decide) (by decide)⟩

/-- C10: `give_user_role` uses `entry(target).or_default()`, so an
authorized `GiveRole` for a target absent from the membership map creates
a fresh entry holding exactly the given role and succeeds; no
`UserNotInRoom` error occurs on this path. -/
theorem give_role_absent_target (s : RoomState) (actor target : String)
    (role : RoleIndex) (vs vo : Bool)
    (hban : alGet s.users_banned actor = none)
    (habs : alGet s.user_roles target = none)
    (hself : (if target = actor then isCapable s actor (.GiveRoleSelf role)
              else (.ok false : Res Bool)) = .ok vs)
    (hother : isCapable s actor (.GiveRoleOther role) = .ok vo)
    (hauth : vs = true ∨ vo = true) :
    tryMakeActions s actor [Action.GiveRole target role] =
      .ok { s with user_roles := s.user_roles ++ [(target, [role])] } ∧
    alGet (s.user_roles ++ [(target, [role])]) target = some [role] := by
  constructor
  · unfold tryMakeActions applyActions applyAction giveUserRole
    have hg : (!vs && !vo) = false := by
      rcases hauth with rfl | rfl <;> simp
    simp only [List.isEmpty_cons, Bool.false_eq_true, if_false, hban,
      hself, hother, hg, habs, applyActions_nil]
  · exact alGet_append_of_none habs [role]

theorem give_role_absent_target_witness :
    tryMakeActions stModAdmin "o" [Action.GiveRole "x" RoleIndex.Restricted] =
      .ok { stModAdmin with
        user_roles := stModAdmin.user_roles ++ [("x", [RoleIndex.Restricted])] } ∧
    alGet (stModAdmin.user_roles ++ [("x", [RoleIndex.Restricted])]) "x" =
      some [RoleIndex.Restricted] :=
  give_role_absent_target stModAdmin "o" "x" RoleIndex.Restricted false true
    (by decide) (by decide) (by decide) (by decide) (.inr rfl)

end MimiRoomPolicy

namespace MimiRoomPolicy

/-- C6 (counterexample): in a fresh Public-template room the first
application of the join batch succeeds, but the second separate
application fails with `NotCapable`, not the claimed `NothingToDo`: the
Restricted role grants no role-giving capability, so the capability check
fails before the redundant-insert check is reached. -/
theorem join_twice_public_not_nothing_to_do :
    joinRoomActions pubVerified.state "b" =
      .ok [Action.GiveRole "b" RoleIndex.Restricted] ∧
    (makeActions pubVerified "b" [Action.GiveRole "b" RoleIndex.Restricted]).1 =
      .ok () ∧
    (makeActions
        (makeActions pubVerified "b" [Action.GiveRole "b" RoleIndex.Restricted]).2
        "b" [Action.GiveRole "b" RoleIndex.Restricted]).1 =
      .error (.err .NotCapable) := by
  decide

end MimiRoomPolicy

namespace MimiRoomPolicy

/-- Helper: capability checks for a user absent from the membership map. -/
theorem isCapable_absent (s : RoomState) (u : String)
    (h0 : alGet s.user_roles u = none) (c : Capability) (caps : List Capability)
    (hc : capsOfRoles s.policy [RoleIndex.Outsider] = .ok caps) :
    isCapable s u c = if caps.contains c then .ok true else .ok false := by
  unfold isCapable userExplicitCapabilities isAdmin
  simp only [h0, hc]

set_option maxHeartbeats 3200000 in
/-- C6 (amended): for any owner and any distinct joining user, in the
Announcement template the second application of the join batch fails
`NothingToDo` (the Visitor role holds `GiveRoleOther{Restricted}`, so the
capability check passes and the redundant insert is the no-op), in the
Public template it fails `NotCapable` (the Restricted role grants no
role-giving capability), and in the InviteOnly, Knock and FixedMembership
templates `join_room_actions` itself fails `NotCapable`. -/
theorem join_twice_templates (owner user : String) (hne : user ≠ owner) :
    (∃ v0, VerifiedRoomState.newFromTemplate owner .Announcement = .ok v0 ∧
      joinRoomActions v0.state user =
        .ok [Action.GiveRole user RoleIndex.Restricted] ∧
      (makeActions v0 user [Action.GiveRole user RoleIndex.Restricted]).1 =
        .ok () ∧
      (makeActions
          (makeActions v0 user [Action.GiveRole user RoleIndex.Restricted]).2
          user [Action.GiveRole user RoleIndex.Restricted]).1 =
        .error (.err .NothingToDo)) ∧
    (∃ v0, VerifiedRoomState.newFromTemplate owner .Public = .ok v0 ∧
      joinRoomActions v0.state user =
        .ok [Action.GiveRole user RoleIndex.Restricted] ∧
      (makeActions v0 user [Action.GiveRole user RoleIndex.Restricted]).1 =
        .ok () ∧
      (makeActions
          (makeActions v0 user [Action.GiveRole user RoleIndex.Restricted]).2
          user [Action.GiveRole user RoleIndex.Restricted]).1 =
        .error (.err .NotCapable)) ∧
    (∀ v0, VerifiedRoomState.newFromTemplate owner .InviteOnly = .ok v0 →
      joinRoomActions v0.state user = .error (.err .NotCapable)) ∧
    (∀ v0, VerifiedRoomState.newFromTemplate owner .Knock = .ok v0 →
      joinRoomActions v0.state user = .error (.err .NotCapable)) ∧
    (∀ v0, VerifiedRoomState.newFromTemplate owner .FixedMembership = .ok v0 →
      joinRoomActions v0.state user = .error (.err .NotCapable)) := by
  have hno : (owner : String) ≠ user := fun h => hne h.symm
  refine ⟨?_, ?_, ?_, ?_, ?_⟩
  -- Announcement
  case _ =>
    set v0 := verifiedOf (RoomState.new owner (templatePolicy .Announcement)) with hv0
    have hroles0 : v0.state.user_roles =
        [(owner, [RoleIndex.Restricted, RoleIndex.Regular, RoleIndex.Moderator,
                  RoleIndex.Admin, RoleIndex.Owner])] := rfl
    have h0 : alGet v0.state.user_roles user = none := by
      rw [hroles0, alGet_cons_ne _ _ _ _ hno]
      rfl
    have hS : isCapable v0.state user
        (.GiveRoleSelf RoleIndex.Restricted) = .ok true := by
      rw [isCapable_absent v0.state user h0 _ _ rfl]
      rfl
    have hO : isCapable v0.state user
        (.GiveRoleOther RoleIndex.Restricted) = .ok false := by
      rw [isCapable_absent v0.state user h0 _ _ rfl]
      rfl
    have hb0 : alGet v0.state.users_banned user = none := rfl
    have step1 : tryMakeActions v0.state user
        [Action.GiveRole user RoleIndex.Restricted] =
        .ok { v0.state with
          user_roles := v0.state.user_roles ++ [(user, [RoleIndex.Restricted])] } := by
      unfold tryMakeActions applyActions applyAction giveUserRole
      simp only [List.isEmpty_cons, Bool.false_eq_true, if_false, hb0, hS, hO, h0,
        if_true, Bool.not_true, Bool.not_false, Bool.false_and, Bool.and_false,
        Bool.true_and, Bool.and_true, Bool.and_self, applyActions_nil]
    have step2 : consistencyChecks { v0.state with
        user_roles := v0.state.user_roles ++ [(user, [RoleIndex.Restricted])] } =
        .ok (verifiedOf { v0.state with
          user_roles := v0.state.user_roles ++ [(user, [RoleIndex.Restricted])] }) := rfl
    have mk1 : makeActions v0 user [Action.GiveRole user RoleIndex.Restricted] =
        (.ok (), verifiedOf { v0.state with
          user_roles := v0.state.user_roles ++ [(user, [RoleIndex.Restricted])] }) := by
      unfold makeActions
      simp only [step1, step2]
    set v1 := verifiedOf { v0.state with
      user_roles := v0.state.user_roles ++ [(user, [RoleIndex.Restricted])] } with hv1
    have hroles1 : v1.state.user_roles =
        [(owner, [RoleIndex.Restricted, RoleIndex.Regular, RoleIndex.Moderator,
                  RoleIndex.Admin, RoleIndex.Owner]),
         (user, [RoleIndex.Restricted])] := rfl
    have h1 : alGet v1.state.user_roles user = some [RoleIndex.Restricted] := by
      rw [hroles1, alGet_cons_ne _ _ _ _ hno]
      unfold alGet
      rw [if_pos rfl]
    have hS1 : isCapable v1.state user
        (.GiveRoleSelf RoleIndex.Restricted) = .ok false := by
      unfold isCapable userExplicitCapabilities isAdmin
      simp only [h1]
      rfl
    have hO1 : isCapable v1.state user
        (.GiveRoleOther RoleIndex.Restricted) = .ok true := by
      unfold isCapable userExplicitCapabilities
      simp only [h1]
      rfl
    have hb1 : alGet v1.state.users_banned user = none := rfl
    have step1' : tryMakeActions v1.state user
        [Action.GiveRole user RoleIndex.Restricted] =
        .error (.err .NothingToDo) := by
      unfold tryMakeActions applyActions applyAction giveUserRole
      simp only [List.isEmpty_cons, Bool.false_eq_true, if_false, hb1, hS1, hO1, h1,
        if_true, Bool.not_true, Bool.not_false, Bool.false_and, Bool.and_false,
        Bool.true_and, Bool.and_true, Bool.and_self]
      rfl
    have mk2 : (makeActions v1 user
        [Action.GiveRole user RoleIndex.Restricted]).1 =
        .error (.err .NothingToDo) := by
      unfold makeActions
      simp only [step1']
    exact ⟨v0, rfl, rfl, by rw [mk1], by rw [mk1]; exact mk2⟩
  -- Public
  case _ =>
    set v0 := verifiedOf (RoomState.new owner (templatePolicy .Public)) with hv0
    have hroles0 : v0.state.user_roles =
        [(owner, [RoleIndex.Restricted, RoleIndex.Regular, RoleIndex.Moderator,
                  RoleIndex.Admin, RoleIndex.Owner])] := rfl
    have h0 : alGet v0.state.user_roles user = none := by
      rw [hroles0, alGet_cons_ne _ _ _ _ hno]
      rfl
    have hS : isCapable v0.state user
        (.GiveRoleSelf RoleIndex.Restricted) = .ok true := by
      rw [isCapable_absent v0.state user h0 _ _ rfl]
      rfl
    have hO : isCapable v0.state user
        (.GiveRoleOther RoleIndex.Restricted) = .ok false := by
      rw [isCapable_absent v0.state user h0 _ _ rfl]
      rfl
    have hb0 : alGet v0.state.users_banned user = none := rfl
    have step1 : tryMakeActions v0.state user
        [Action.GiveRole user RoleIndex.Restricted] =
        .ok { v0.state with
          user_roles := v0.state.user_roles ++ [(user, [RoleIndex.Restricted])] } := by
      unfold tryMakeActions applyActions applyAction giveUserRole
      simp only [List.isEmpty_cons, Bool.false_eq_true, if_false, hb0, hS, hO, h0,
        if_true, Bool.not_true, Bool.not_false, Bool.false_and, Bool.and_false,
        Bool.true_and, Bool.and_true, Bool.and_self, applyActions_nil]
    have step2 : consistencyChecks { v0.state with
        user_roles := v0.state.user_roles ++ [(user, [RoleIndex.Restricted])] } =
        .ok (verifiedOf { v0.state with
          user_roles := v0.state.user_roles ++ [(user, [RoleIndex.Restricted])] }) := rfl
    have mk1 : makeActions v0 user [Action.GiveRole user RoleIndex.Restricted] =
        (.ok (), verifiedOf { v0.state with
          user_roles := v0.state.user_roles ++ [(user, [RoleIndex.Restricted])] }) := by
      unfold makeActions
      simp only [step1, step2]
    set v1 := verifiedOf { v0.state with
      user_roles := v0.state.user_roles ++ [(user, [RoleIndex.Restricted])] } with hv1
    have hroles1 : v1.state.user_roles =
        [(owner, [RoleIndex.Restricted, RoleIndex.Regular, RoleIndex.Moderator,
                  RoleIndex.Admin, RoleIndex.Owner]),
         (user, [RoleIndex.Restricted])] := rfl
    have h1 : alGet v1.state.user_roles user = some [RoleIndex.Restricted] := by
      rw [hroles1, alGet_cons_ne _ _ _ _ hno]
      unfold alGet
      rw [if_pos rfl]
    have hS1 : isCapable v1.state user
        (.GiveRoleSelf RoleIndex.Restricted) = .ok false := by
      unfold isCapable userExplicitCapabilities isAdmin
      simp only [h1]
      rfl
    have hO1 : isCapable v1.state user
        (.GiveRoleOther RoleIndex.Restricted) = .ok false := by
      unfold isCapable userExplicitCapabilities isAdmin
      simp only [h1]
      rfl
    have hb1 : alGet v1.state.users_banned user = none := rfl
    have step1' : tryMakeActions v1.state user
        [Action.GiveRole user RoleIndex.Restricted] =
        .error (.err .NotCapable) := by
      unfold tryMakeActions applyActions applyAction
      simp only [List.isEmpty_cons, Bool.false_eq_true, if_false, hb1, hS1, hO1,
        if_true, Bool.not_true, Bool.not_false, Bool.false_and, Bool.and_false,
        Bool.true_and, Bool.and_true, Bool.and_self]
    have mk2 : (makeActions v1 user
        [Action.GiveRole user RoleIndex.Restricted]).1 =
        .error (.err .NotCapable) := by
      unfold makeActions
      simp only [step1']
    exact ⟨v0, rfl, rfl, by rw [mk1], by rw [mk1]; exact mk2⟩
  -- InviteOnly / Knock / FixedMembership
  case _ =>
    intro v0 h
    injection h with h3
    rw [← h3]
    rfl
  case _ =>
    intro v0 h
    injection h with h3
    rw [← h3]
    rfl
  case _ =>
    intro v0 h
    injection h with h3
    rw [← h3]
    rfl

theorem join_twice_templates_witness :
    ∃ v0, VerifiedRoomState.newFromTemplate "o" .Announcement = .ok v0 ∧
      joinRoomActions v0.state "b" =
        .ok [Action.GiveRole "b" RoleIndex.Restricted] ∧
      (makeActions v0 "b" [Action.GiveRole "b" RoleIndex.Restricted]).1 =
        .ok () ∧
      (makeActions
          (makeActions v0 "b" [Action.GiveRole "b" RoleIndex.Restricted]).2
          "b" [Action.GiveRole "b" RoleIndex.Restricted]).1 =
        .error (.err .NothingToDo) :=
  (join_twice_templates "o" "b" (by decide)).1

end MimiRoomPolicy

namespace MimiRoomPolicy

theorem readLength_writeLength {n : Nat} {bs : List Nat}
    (h : writeLength n = some bs) (rest : List Nat) :
    readLength (bs ++ rest) = some (n, bs.length, rest) := by
  unfold writeLength at h
  split at h
  · cases h
    rename_i h1
    unfold readLength
    have : n / 64 = 0 := Nat.div_eq_of_lt h1
    simp [this]
  split at h
  · cases h
    rename_i h1 h2
    unfold readLength
    have hd : (64 + n / 256) / 64 = 1 := by omega
    simp only [List.cons_append, List.nil_append, hd]
    have hm : (64 + n / 256) % 64 = n / 256 := by omega
    simp [hm]
    omega
  split at h
  · cases h
    rename_i h1 h2 h3
    unfold readLength
    have hd : (128 + n / 16777216) / 64 = 2 := by omega
    simp only [List.cons_append, List.nil_append, hd]
    have hm : (128 + n / 16777216) % 64 = n / 16777216 := by omega
    simp [hm]
    omega
  split at h
  · cases h
    rename_i h1 h2 h3 h4
    unfold readLength
    have hd : (192 + n / 72057594037927936) / 64 = 3 := by omega
    simp only [List.cons_append, List.nil_append, hd]
    have hm : (192 + n / 72057594037927936) % 64 = n / 72057594037927936 := by
      omega
    simp [hm]
    omega
  · cases h

end MimiRoomPolicy

namespace MimiRoomPolicy

theorem btInsert_append {K V : Type} [LinearOrder K] {k : K} (v : V)
    {acc : List (K × V)} (h : ∀ kv ∈ acc, kv.1 < k) :
    btInsert k v acc = acc ++ [(k, v)] := by
  induction acc with
  | nil => rfl
  | cons x rest ih =>
    obtain ⟨k', v'⟩ := x
    have hk : k' < k := h (k', v') (List.mem_cons_self _ _)
    unfold btInsert
    rw [if_neg (by exact not_lt_of_gt hk), if_neg (by exact fun he => absurd he.symm (ne_of_lt hk))]
    rw [ih (fun kv hkv => h kv (List.mem_cons_of_mem _ hkv))]
    rfl

theorem mapDeserializeLoop_ok {K V : Type} [LinearOrder K]
    {ck : Codec K} {cv : Codec V} {Pk : K → Prop} {Pv : V → Prop}
    (hk : GoodOn ck Pk) (hv : GoodOn cv Pv) (len : Nat)
    (ms : List (K × V)) :
    ∀ (acc : List (K × V)) (consumed fuel : Nat) (rest : List Nat),
    (∀ kv ∈ ms, Pk kv.1 ∧ Pv kv.2) →
    (∀ kv ∈ ms, ∀ kv' ∈ acc, kv'.1 < kv.1) →
    List.Pairwise (fun a b => a.1 < b.1) ms →
    consumed + mapContentLen ck cv ms = len →
    ms.length ≤ fuel →
    mapDeserializeLoop ck cv fuel len consumed
      ((ms.map fun kv => ck.enc kv.1 ++ cv.enc kv.2).join ++ rest) acc =
      some (some (acc ++ ms, rest)) := by
  induction ms with
  | nil =>
    intro acc consumed fuel rest hP hord hpair hlen hfuel
    unfold mapDeserializeLoop
    rw [if_neg (by unfold mapContentLen at hlen; simp at hlen; omega)]
    simp
  | cons kv ms' ih =>
    intro acc consumed fuel rest hP hord hpair hlen hfuel
    obtain ⟨k, v⟩ := kv
    have hPk := (hP (k, v) (List.mem_cons_self _ _)).1
    have hPv := (hP (k, v) (List.mem_cons_self _ _)).2
    have hlk := (hk k hPk).2
    have hlv := (hv v hPv).2
    simp only [mapContentLen, List.map_cons, List.sum_cons] at hlen
    have hcons : consumed < len := by omega
    cases fuel with
    | zero => simp at hfuel
    | succ fuel' =>
      unfold mapDeserializeLoop
      rw [if_pos hcons]
      have hdk : ck.dec (ck.enc k ++ (cv.enc v ++
          ((ms'.map fun kv => ck.enc kv.1 ++ cv.enc kv.2).join ++ rest))) =
          some (k, cv.enc v ++
            ((ms'.map fun kv => ck.enc kv.1 ++ cv.enc kv.2).join ++ rest)) :=
        (hk k hPk).1 _
      have hdv : cv.dec (cv.enc v ++
          ((ms'.map fun kv => ck.enc kv.1 ++ cv.enc kv.2).join ++ rest)) =
          some (v, (ms'.map fun kv => ck.enc kv.1 ++ cv.enc kv.2).join ++ rest) :=
        (hv v hPv).1 _
      simp only [List.map_cons, List.flatten_cons, List.append_assoc]
      rw [hdk]
      simp only [hdv]
      rw [btInsert_append v
        (fun kv' h' => hord (k, v) (List.mem_cons_self _ _) kv' h')]
      have := ih (acc ++ [(k, v)]) (consumed + ck.len k + cv.len v) fuel' rest
        (fun x hx => hP x (List.mem_cons_of_mem _ hx))
        (fun x hx kv' hkv' => by
          rcases List.mem_append.1 hkv' with h1 | h1
          · exact hord x (List.mem_cons_of_mem _ hx) kv' h1
          · rcases List.mem_singleton.1 h1 with rfl
            exact (List.pairwise_cons.1 hpair).1 x hx)
        (List.pairwise_cons.1 hpair).2
        (by simp only [mapContentLen]; omega)
        (by simpa using Nat.le_of_succ_le_succ (by simpa using hfuel))
      rw [this]
      simp

end MimiRoomPolicy

namespace MimiRoomPolicy

theorem length_le_mapContentLen {K V : Type} {ck : Codec K} {cv : Codec V}
    {Pk : K → Prop} {Pv : V → Prop} (hk : GoodOn ck Pk) (hv : GoodOn cv Pv)
    (m : List (K × V)) (hPm : ∀ kv ∈ m, Pk kv.1 ∧ Pv kv.2) :
    m.length ≤ mapContentLen ck cv m := by
  induction m with
  | nil => simp [mapContentLen]
  | cons kv m' ih =>
    have h1 := (hk kv.1 (hPm kv (List.mem_cons_self _ _)).1).2.2
    have h2 := (hv kv.2 (hPm kv (List.mem_cons_self _ _)).2).2.2
    have h3 := ih (fun x hx => hPm x (List.mem_cons_of_mem _ hx))
    simp only [mapContentLen, List.map_cons, List.sum_cons, List.length_cons] at *
    omega

theorem map_roundtrip {K V : Type} [LinearOrder K] {ck : Codec K}
    {cv : Codec V} {Pk : K → Prop} {Pv : V → Prop}
    (hk : GoodOn ck Pk) (hv : GoodOn cv Pv) (m : List (K × V))
    (hm : List.Pairwise (fun a b => a.1 < b.1) m)
    (hPm : ∀ kv ∈ m, Pk kv.1 ∧ Pv kv.2)
    {bs : List Nat} (henc : mapSerialize ck cv m = some bs) (rest : List Nat) :
    mapDeserialize ck cv (bs ++ rest) = some (some (m, rest)) := by
  unfold mapSerialize at henc
  cases hw : writeLength (mapContentLen ck cv m) with
  | none => rw [hw] at henc; cases henc
  | some ll =>
    rw [hw] at henc
    cases henc
    unfold mapDeserialize
    rw [List.append_assoc, readLength_writeLength hw]
    simp only []
    by_cases h0 : mapContentLen ck cv m = 0
    · rw [if_pos h0]
      cases m with
      | nil => simp
      | cons kv m' =>
        exfalso
        have h1 := (hk kv.1 (hPm kv (List.mem_cons_self _ _)).1).2.2
        simp only [mapContentLen, List.map_cons, List.sum_cons] at h0
        omega
    · rw [if_neg h0]
      have := mapDeserializeLoop_ok hk hv (mapContentLen ck cv m) m []
        0 (mapContentLen ck cv m + 1) rest hPm (by simp) hm (by omega)
        (by have := length_le_mapContentLen hk hv m hPm; omega)
      simpa using this

theorem u8loop_trunc : ∀ (fuel len consumed : Nat) (bytes : List Nat)
    (acc : List (Nat × Nat)), bytes.length < len - consumed →
    len - consumed ≤ fuel →
    mapDeserializeLoop (u8C []) (u8C []) fuel len consumed bytes acc =
      some none := by
  intro fuel
  induction fuel with
  | zero => intro len consumed bytes acc h1 h2; exfalso; omega
  | succ f ih =>
    intro len consumed bytes acc h1 h2
    unfold mapDeserializeLoop
    rw [if_pos (by omega)]
    cases bytes with
    | nil => simp [u8C, List.dropPrefix?]
    | cons b r =>
      cases r with
      | nil => simp [u8C, List.dropPrefix?]
      | cons v r2 =>
        have hd1 : (u8C []).dec (b :: v :: r2) = some (b, v :: r2) := rfl
        have hd2 : (u8C []).dec (v :: r2) = some (v, r2) := rfl
        have hl : ∀ x : Nat, (u8C []).len x = 1 := fun _ => rfl
        simp only [hd1, hd2, hl]
        exact ih len (consumed + 1 + 1) r2 (btInsert b v acc)
          (by simp at h1 ⊢; omega) (by omega)

end MimiRoomPolicy

namespace MimiRoomPolicy

/-- C9 (counterexample): with one-byte keys and values, the input
`[1, 0xAA, 0xBB]` declares a content length of 1 byte, but the single
key/value pair occupies 2 bytes — the pair overshoots the declared
length. The decoder exits its loop after the pair and returns the map
anyway instead of rejecting the input. -/
theorem map_decode_accepts_overshoot :
    mapDeserialize (u8C []) (u8C []) [1, 170, 187] =
      some (some ([(170, 187)], [])) := by
  decide

/-- C9 (amended): with one-byte keys and values, a declared content
length larger than the bytes available is rejected: some key or value
parse hits the end of input and the error propagates. -/
theorem map_decode_rejects_truncation (bytes : List Nat)
    (len lenLen : Nat) (rest : List Nat)
    (h : readLength bytes = some (len, lenLen, rest))
    (hshort : rest.length < len) :
    mapDeserialize (u8C []) (u8C []) bytes = some none := by
  unfold mapDeserialize
  rw [h]
  simp only []
  rw [if_neg (by omega)]
  exact u8loop_trunc (len + 1) len 0 rest [] (by omega) (by omega)

/-- C9 (witness): the input `[3, 0xAA, 0xBB]` declares 3 content bytes
but provides only 2; decoding fails. -/
theorem map_decode_rejects_truncation_witness :
    mapDeserialize (u8C []) (u8C []) [3, 170, 187] = some none :=
  map_decode_rejects_truncation [3, 170, 187] 3 1 [170, 187]
    (by decide) (by decide)

end MimiRoomPolicy

namespace MimiRoomPolicy

theorem dropPrefix_append {α : Type} [DecidableEq α] (pre xs : List α) :
    (pre ++ xs).dropPrefix? pre = some xs := by
  induction pre with
  | nil => simp [List.dropPrefix?]
  | cons a rest ih => simp [List.dropPrefix?, ih]

theorem GoodOn_u8C (pre : List Nat) : GoodOn (u8C pre) (· < 256) := by
  intro n hn
  refine ⟨?_, by simp [u8C], by simp [u8C]⟩
  intro rest
  simp only [u8C, List.append_assoc, List.cons_append, List.nil_append,
    dropPrefix_append]
  rw [Nat.mod_eq_of_lt hn]

theorem GoodOn_u16C (pre : List Nat) : GoodOn (u16C pre) (· < 65536) := by
  intro n hn
  refine ⟨?_, by simp [u16C], by simp [u16C]⟩
  intro rest
  simp only [u16C, List.append_assoc, List.cons_append, List.nil_append,
    dropPrefix_append]
  have h : n / 256 % 256 * 256 + n % 256 = n := by omega
  rw [h]

theorem GoodOn_u32C (pre : List Nat) : GoodOn (u32C pre) (· < 4294967296) := by
  intro n hn
  refine ⟨?_, by simp [u32C], by simp [u32C]⟩
  intro rest
  simp only [u32C, List.append_assoc, List.cons_append, List.nil_append,
    dropPrefix_append]
  have h : n / 16777216 % 256 * 16777216 + n / 65536 % 256 * 65536 +
      n / 256 % 256 * 256 + n % 256 = n := by omega
  rw [h]

theorem GoodOn_boolC (pre : List Nat) : GoodOn (boolC pre) (fun _ => True) := by
  intro b _
  refine ⟨?_, by simp [boolC], by simp [boolC]⟩
  intro rest
  cases b <;> simp [boolC, dropPrefix_append]

end MimiRoomPolicy

namespace MimiRoomPolicy

theorem GoodOn_optC {α : Type} {c : Codec α} {P : α → Prop} (pre : List Nat)
    (hc : GoodOn c P) :
    GoodOn (optC pre c) (fun x => ∀ a, x = some a → P a) := by
  intro x hx
  cases x with
  | none =>
    refine ⟨?_, by simp [optC], by simp [optC]⟩
    intro rest
    simp [optC, dropPrefix_append]
  | some a =>
    have ha := hc a (hx a rfl)
    refine ⟨?_, by simp [optC, ha.2.1]; omega, by simp [optC]⟩
    intro rest
    simp only [optC, List.append_assoc, List.cons_append, List.nil_append,
      dropPrefix_append]
    rw [ha.1 rest]

theorem decElems_ok {α : Type} {c : Codec α} {P : α → Prop}
    (hc : GoodOn c P) (l : List α) (hP : ∀ x ∈ l, P x) (rest : List Nat) :
    decElems c l.length ((l.map c.enc).join ++ rest) = some (l, rest) := by
  induction l with
  | nil => simp [decElems]
  | cons x l' ih =>
    simp only [List.length_cons, List.map_cons, List.flatten_cons,
      List.append_assoc, decElems]
    have h1 := (hc x (hP x (List.mem_cons_self _ _))).1
      ((l'.map c.enc).join ++ rest)
    simp only [h1, ih (fun y hy => hP y (List.mem_cons_of_mem _ hy))]

theorem writeLength_some {n : Nat} (h : n < LMAX) :
    writeLength n = some (writeLengthT n) := by
  unfold writeLengthT
  cases hw : writeLength n with
  | some bs => rfl
  | none =>
    exfalso
    unfold writeLength at hw
    unfold LMAX at h
    by_cases h1 : n < 64
    · rw [if_pos h1] at hw; cases hw
    rw [if_neg h1] at hw
    by_cases h2 : n < 16384
    · rw [if_pos h2] at hw; cases hw
    rw [if_neg h2] at hw
    by_cases h3 : n < 1073741824
    · rw [if_pos h3] at hw; cases hw
    rw [if_neg h3] at hw
    rw [if_pos h] at hw
    cases hw

theorem writeLengthT_length_pos {n : Nat} (h : n < LMAX) :
    0 < (writeLengthT n).length := by
  have hw := writeLength_some h
  unfold writeLength at hw
  split at hw
  · injection hw with hw; rw [← hw]; simp
  split at hw
  · injection hw with hw; rw [← hw]; simp
  split at hw
  · injection hw with hw; rw [← hw]; simp
  split at hw
  · injection hw with hw; rw [← hw]; simp
  · cases hw

theorem sum_len_eq {α : Type} {c : Codec α} {P : α → Prop}
    (hc : GoodOn c P) (l : List α) (hP : ∀ x ∈ l, P x) :
    (l.map c.len).sum = ((l.map c.enc).join).length := by
  induction l with
  | nil => simp
  | cons x l' ih =>
    simp only [List.map_cons, List.sum_cons, List.flatten_cons,
      List.length_append]
    rw [(hc x (hP x (List.mem_cons_self _ _))).2.1,
      ih (fun y hy => hP y (List.mem_cons_of_mem _ hy))]

theorem GoodOn_listC {α : Type} {c : Codec α} {P : α → Prop} (pre : List Nat)
    (hc : GoodOn c P) :
    GoodOn (listC pre c) (fun l => l.length < LMAX ∧ ∀ x ∈ l, P x) := by
  intro l hl
  refine ⟨?_, ?_, ?_⟩
  · intro rest
    simp only [listC, List.append_assoc, dropPrefix_append]
    rw [readLength_writeLength (writeLength_some hl.1)]
    simp only []
    exact decElems_ok hc l hl.2 rest
  · simp only [listC, List.length_append]
    rw [sum_len_eq hc l hl.2]
  · simp only [listC]
    have := writeLengthT_length_pos hl.1
    omega

theorem GoodOn_prodC {α β : Type} {ca : Codec α} {cb : Codec β}
    {Pa : α → Prop} {Pb : β → Prop} (ha : GoodOn ca Pa) (hb : GoodOn cb Pb) :
    GoodOn (prodC ca cb) (fun x => Pa x.1 ∧ Pb x.2) := by
  intro x hx
  obtain ⟨a, b⟩ := x
  refine ⟨?_, ?_, ?_⟩
  · intro rest
    simp only [prodC, List.append_assoc]
    rw [(ha a hx.1).1]
    simp only []
    rw [(hb b hx.2).1]
  · simp only [prodC, List.length_append, (ha a hx.1).2.1, (hb b hx.2).2.1]
  · have h1 := (ha a hx.1).2.2
    simp only [prodC]
    omega

theorem GoodOn_isoC {α β : Type} {c : Codec α} {P : α → Prop}
    (f : α → β) (g : β → α) (Q : β → Prop) (hc : GoodOn c P)
    (hfg : ∀ b, Q b → P (g b) ∧ f (g b) = b) :
    GoodOn (isoC f g c) Q := by
  intro b hb
  obtain ⟨hP, hf⟩ := hfg b hb
  refine ⟨?_, ?_, ?_⟩
  · intro rest
    simp only [isoC]
    rw [(hc (g b) hP).1]
    simp only [hf]
  · exact (hc (g b) hP).2.1
  · exact (hc (g b) hP).2.2

end MimiRoomPolicy

namespace MimiRoomPolicy

theorem GoodOn_roleIndexC (pre : List Nat) :
    GoodOn (roleIndexC pre) RoleIndexValid := by
  intro r hr
  cases r with
  | Custom n =>
    have hn : n < 65536 := hr
    refine ⟨?_, by simp [roleIndexC], by simp [roleIndexC]⟩
    intro rest
    simp only [roleIndexC, List.append_assoc, List.cons_append,
      List.nil_append, dropPrefix_append]
    have h : n / 256 % 256 * 256 + n % 256 = n := by omega
    rw [h]
  | Outsider =>
    exact ⟨fun rest => by
      simp [roleIndexC, dropPrefix_append], by simp [roleIndexC],
      by simp [roleIndexC]⟩
  | Restricted =>
    exact ⟨fun rest => by
      simp [roleIndexC, dropPrefix_append], by simp [roleIndexC],
      by simp [roleIndexC]⟩
  | Regular =>
    exact ⟨fun rest => by
      simp [roleIndexC, dropPrefix_append], by simp [roleIndexC],
      by simp [roleIndexC]⟩
  | Moderator =>
    exact ⟨fun rest => by
      simp [roleIndexC, dropPrefix_append], by simp [roleIndexC],
      by simp [roleIndexC]⟩
  | Admin =>
    exact ⟨fun rest => by
      simp [roleIndexC, dropPrefix_append], by simp [roleIndexC],
      by simp [roleIndexC]⟩
  | Owner =>
    exact ⟨fun rest => by
      simp [roleIndexC, dropPrefix_append], by simp [roleIndexC],
      by simp [roleIndexC]⟩

theorem GoodOn_messageTypeC (pre : List Nat) :
    GoodOn (messageTypeC pre) (fun _ => True) := by
  intro t _
  refine ⟨?_, by cases t <;> simp [messageTypeC], by simp [messageTypeC]⟩
  intro rest
  cases t <;> simp [messageTypeC, dropPrefix_append]

theorem GoodOn_optionalityC (pre : List Nat) :
    GoodOn (optionalityC pre) (fun _ => True) := by
  intro o _
  refine ⟨?_, by cases o <;> simp [optionalityC], by simp [optionalityC]⟩
  intro rest
  cases o <;> simp [optionalityC, dropPrefix_append]

set_option maxHeartbeats 3200000 in
theorem GoodOn_capabilityC {cr : Codec RoleIndex} {cm : Codec MessageType}
    (pre : List Nat) (hr : GoodOn cr RoleIndexValid)
    (hm : GoodOn cm (fun _ => True)) :
    GoodOn (capabilityC pre cr cm) CapabilityValid := by
  intro c hc
  cases c with
  | GiveRoleOther r =>
    have h := hr r hc
    refine ⟨?_, by simp [capabilityC, h.2.1]; omega, by simp [capabilityC]⟩
    intro rest
    simp [capabilityC, dropPrefix_append, h.1 rest]
  | DropRoleOther r =>
    have h := hr r hc
    refine ⟨?_, by simp [capabilityC, h.2.1]; omega, by simp [capabilityC]⟩
    intro rest
    simp [capabilityC, dropPrefix_append, h.1 rest]
  | GiveRoleSelf r =>
    have h := hr r hc
    refine ⟨?_, by simp [capabilityC, h.2.1]; omega, by simp [capabilityC]⟩
    intro rest
    simp [capabilityC, dropPrefix_append, h.1 rest]
  | SendMessage t =>
    have h := hm t trivial
    refine ⟨?_, by simp [capabilityC, h.2.1]; omega, by simp [capabilityC]⟩
    intro rest
    simp [capabilityC, dropPrefix_append, h.1 rest]
  | Knock =>
    exact ⟨fun rest => by simp [capabilityC, dropPrefix_append],
      by simp [capabilityC], by simp [capabilityC]⟩
  | Kick =>
    exact ⟨fun rest => by simp [capabilityC, dropPrefix_append],
      by simp [capabilityC], by simp [capabilityC]⟩
  | Ban =>
    exact ⟨fun rest => by simp [capabilityC, dropPrefix_append],
      by simp [capabilityC], by simp [capabilityC]⟩
  | IgnoreRatelimit =>
    exact ⟨fun rest => by simp [capabilityC, dropPrefix_append],
      by simp [capabilityC], by simp [capabilityC]⟩
  | EditMessageOther =>
    exact ⟨fun rest => by simp [capabilityC, dropPrefix_append],
      by simp [capabilityC], by simp [capabilityC]⟩
  | EditMessageSelf =>
    exact ⟨fun rest => by simp [capabilityC, dropPrefix_append],
      by simp [capabilityC], by simp [capabilityC]⟩
  | DeleteMessageOther =>
    exact ⟨fun rest => by simp [capabilityC, dropPrefix_append],
      by simp [capabilityC], by simp [capabilityC]⟩
  | DeleteMessageSelf =>
    exact ⟨fun rest => by simp [capabilityC, dropPrefix_append],
      by simp [capabilityC], by simp [capabilityC]⟩

end MimiRoomPolicy

namespace MimiRoomPolicy

theorem charUtf8_rt (c : Char) (rest : List Nat) :
    readUtf8Char (charUtf8 c ++ rest) = some (c.toNat, rest) := by
  have hv := c.valid
  unfold Nat.isValidChar at hv
  have he : c.toNat = c.val.toNat := rfl
  have hlt : c.toNat < 1114112 := by rcases hv with h | ⟨h1, h2⟩ <;> omega
  unfold charUtf8
  by_cases h1 : c.toNat < 128
  · simp only [if_pos h1, List.cons_append, List.nil_append]
    unfold readUtf8Char
    simp only []
    rw [if_pos h1]
  · rw [if_neg h1]
    by_cases h2 : c.toNat < 2048
    · simp only [if_pos h2, List.cons_append, List.nil_append]
      unfold readUtf8Char
      simp only []
      rw [if_neg (by omega), if_pos (by omega)]
      have h : (192 + c.toNat / 64 - 192) * 64 + (128 + c.toNat % 64 - 128) =
          c.toNat := by omega
      rw [h]
    · rw [if_neg h2]
      by_cases h3 : c.toNat < 65536
      · simp only [if_pos h3, List.cons_append, List.nil_append]
        unfold readUtf8Char
        simp only []
        rw [if_neg (by omega), if_neg (by omega), if_pos (by omega)]
        have h : (224 + c.toNat / 4096 - 224) * 4096 +
            (128 + c.toNat / 64 % 64 - 128) * 64 +
            (128 + c.toNat % 64 - 128) = c.toNat := by omega
        rw [h]
      · simp only [if_neg h3, List.cons_append, List.nil_append]
        unfold readUtf8Char
        simp only []
        rw [if_neg (by omega), if_neg (by omega), if_neg (by omega)]
        have h : (240 + c.toNat / 262144 - 240) * 262144 +
            (128 + c.toNat / 4096 % 64 - 128) * 4096 +
            (128 + c.toNat / 64 % 64 - 128) * 64 +
            (128 + c.toNat % 64 - 128) = c.toNat := by omega
        rw [h]

theorem charUtf8_length_pos (c : Char) : 0 < (charUtf8 c).length := by
  simp only [charUtf8]
  split_ifs <;> simp

theorem readUtf8Chars_rt (cs : List Char) :
    ∀ fuel, ((cs.map charUtf8).join).length ≤ fuel →
    readUtf8Chars fuel ((cs.map charUtf8).join) = some cs := by
  induction cs with
  | nil =>
    intro fuel _
    cases fuel <;> rfl
  | cons c cs' ih =>
    intro fuel hf
    simp only [List.map_cons, List.flatten_cons] at hf ⊢
    have hpos := charUtf8_length_pos c
    cases hcu : charUtf8 c with
    | nil => rw [hcu] at hpos; simp at hpos
    | cons b bs' =>
      simp only [hcu] at hf
      cases fuel with
      | zero => simp at hf
      | succ f =>
        show (match readUtf8Char (b :: (bs' ++ (cs'.map charUtf8).join)) with
          | none => none
          | some (n, r1) =>
            match readUtf8Chars f r1 with
            | none => none
            | some cs => some (Char.ofNat n :: cs)) = some (c :: cs')
        have hrc : readUtf8Char (b :: (bs' ++ (cs'.map charUtf8).join)) =
            some (c.toNat, (cs'.map charUtf8).join) := by
          have := charUtf8_rt c ((cs'.map charUtf8).join)
          rw [hcu] at this
          simpa using this
        rw [hrc]
        simp only []
        rw [ih f (by simp [List.length_join, List.map_map] at hf ⊢; omega)]
        simp [Char.ofNat_toNat]

end MimiRoomPolicy

namespace MimiRoomPolicy

theorem GoodOn_stringC (pre : List Nat) : GoodOn (stringC pre) StrValid := by
  intro s hs
  refine ⟨?_, ?_, ?_⟩
  · intro rest
    have hs' : ((s.data.map charUtf8).join).length < LMAX := hs
    simp only [stringC, utf8Bytes, List.append_assoc, dropPrefix_append]
    rw [readLength_writeLength (writeLength_some hs')]
    simp only []
    rw [if_pos (by simp)]
    rw [List.take_left, List.drop_left]
    rw [readUtf8Chars_rt s.data _ (le_refl _)]
  · simp only [stringC, List.length_append]
  · simp only [stringC]
    have := writeLengthT_length_pos hs
    omega

theorem join_length_eq_mapContentLen {K V : Type} {ck : Codec K}
    {cv : Codec V} {Pk : K → Prop} {Pv : V → Prop}
    (hk : GoodOn ck Pk) (hv : GoodOn cv Pv) (m : List (K × V))
    (hPm : ∀ kv ∈ m, Pk kv.1 ∧ Pv kv.2) :
    ((m.map fun kv => ck.enc kv.1 ++ cv.enc kv.2).join).length =
      mapContentLen ck cv m := by
  induction m with
  | nil => simp [mapContentLen]
  | cons kv m' ih =>
    have hih := ih (fun x hx => hPm x (List.mem_cons_of_mem _ hx))
    simp only [mapContentLen] at hih
    simp only [mapContentLen, List.map_cons, List.flatten_cons,
      List.length_append, List.sum_cons]
    rw [(hk kv.1 (hPm kv (List.mem_cons_self _ _)).1).2.1,
      (hv kv.2 (hPm kv (List.mem_cons_self _ _)).2).2.1, ← hih]

theorem GoodOn_mapC {K V : Type} [LinearOrder K] {ck : Codec K}
    {cv : Codec V} {Pk : K → Prop} {Pv : V → Prop} (pre : List Nat)
    (hk : GoodOn ck Pk) (hv : GoodOn cv Pv) :
    GoodOn (mapC pre ck cv)
      (fun m => List.Pairwise (fun a b => a.1 < b.1) m ∧
        (∀ kv ∈ m, Pk kv.1 ∧ Pv kv.2) ∧ mapContentLen ck cv m < LMAX) := by
  intro m hm
  obtain ⟨hpair, hPm, hlen⟩ := hm
  have hw := writeLength_some hlen
  have henc : mapSerialize ck cv m =
      some (writeLengthT (mapContentLen ck cv m) ++
        (m.map fun kv => ck.enc kv.1 ++ cv.enc kv.2).join) := by
    unfold mapSerialize
    rw [hw]
  refine ⟨?_, ?_, ?_⟩
  · intro rest
    have hrt := map_roundtrip hk hv m hpair hPm henc rest
    simp only [List.append_assoc] at hrt
    simp only [mapC, henc, Option.getD_some, List.append_assoc]
    rw [dropPrefix_append]
    simp only []
    rw [hrt]
  · simp only [mapC, henc, Option.getD_some, List.length_append]
    rw [join_length_eq_mapContentLen hk hv m hPm]
    omega
  · simp only [mapC]
    have := writeLengthT_length_pos hlen
    omega

end MimiRoomPolicy

namespace MimiRoomPolicy

theorem GoodOn_roleInfoC (m : Bool) : GoodOn (roleInfoC m) RoleInfoValid := by
  refine GoodOn_isoC _ _ _
    (GoodOn_prodC (GoodOn_stringC _)
      (GoodOn_prodC (GoodOn_stringC _)
        (GoodOn_prodC
          (GoodOn_listC _ (GoodOn_capabilityC _ (GoodOn_roleIndexC _)
            (GoodOn_messageTypeC _)))
          (GoodOn_prodC (GoodOn_listC _ (GoodOn_roleIndexC _))
            (GoodOn_prodC (GoodOn_u32C _)
              (GoodOn_optC _ (GoodOn_u32C _))))))) ?_
  intro i hi
  obtain ⟨h1, h2, h3, h4, h5, h6, h7, h8⟩ := hi
  exact ⟨⟨h1, h2, ⟨h3, h4⟩, ⟨h5, h6⟩, h7, h8⟩, rfl⟩

theorem GoodOn_roomPolicyC (m : Bool) :
    GoodOn (roomPolicyC m) (RoomPolicyValid m) := by
  refine GoodOn_isoC _ _ _
    (GoodOn_prodC (GoodOn_mapC _ (GoodOn_roleIndexC _) (GoodOn_roleInfoC m))
      (GoodOn_prodC (GoodOn_optC _ (GoodOn_stringC _))
        (GoodOn_prodC (GoodOn_optC _ (GoodOn_stringC _))
          (GoodOn_prodC (GoodOn_optionalityC _)
            (GoodOn_prodC (GoodOn_optionalityC _) (GoodOn_boolC _)))))) ?_
  intro p hp
  obtain ⟨h1, h2, h3, h4, h5⟩ := hp
  exact ⟨⟨⟨h1, h2, h3⟩, h4, h5, trivial, trivial, trivial⟩, rfl⟩

theorem GoodOn_banInfoC (m : Bool) : GoodOn (banInfoC m) BanInfoValid := by
  refine GoodOn_isoC _ _ _
    (GoodOn_prodC (GoodOn_stringC _)
      (GoodOn_prodC (GoodOn_stringC _)
        (GoodOn_optC _ (GoodOn_u32C _)))) ?_
  intro b hb
  obtain ⟨h1, h2, h3⟩ := hb
  exact ⟨⟨h1, h2, h3⟩, rfl⟩

theorem GoodOn_roomStateC (m : Bool) :
    GoodOn (roomStateC m) (RoomStateValid m) := by
  refine GoodOn_isoC _ _ _
    (GoodOn_prodC (GoodOn_roomPolicyC m)
      (GoodOn_prodC
        (GoodOn_mapC _ (GoodOn_stringC _)
          (GoodOn_listC _ (GoodOn_roleIndexC _)))
        (GoodOn_mapC _ (GoodOn_stringC _) (GoodOn_banInfoC m)))) ?_
  intro s hs
  obtain ⟨h1, h2, h3, h4, h5, h6, h7⟩ := hs
  exact ⟨⟨h1, ⟨h2, h3, h4⟩, h5, h6, h7⟩, rfl⟩

theorem GoodOn_verifiedRoomStateC (m : Bool) :
    GoodOn (verifiedRoomStateC m) (VerifiedRoomStateValid m) := by
  refine GoodOn_isoC _ _ _ (GoodOn_roomStateC m) ?_
  intro v hv
  exact ⟨hv, rfl⟩

end MimiRoomPolicy

namespace MimiRoomPolicy

/-- Claim C8: wire round-trip. For the implemented associative-map codec,
any lawful key/value codecs and any strictly key-sorted map of valid
entries with in-range content length serialize and deserialize back to
exactly the same map with an empty remainder; and for both modelled
encodings (`mo = false` the TLS-style encoding, `mo = true` the tagged
self-describing encoding standing in for CBOR), decoding the encoding of
any valid `RoomPolicy`, `RoomState` or `VerifiedRoomState` returns the
original value with an empty remainder. -/
theorem wire_roundtrip {K V : Type} [LinearOrder K] {ck : Codec K}
    {cv : Codec V} {Pk : K → Prop} {Pv : V → Prop}
    (hk : GoodOn ck Pk) (hv : GoodOn cv Pv) (mp : List (K × V))
    (hsort : List.Pairwise (fun a b => a.1 < b.1) mp)
    (hPm : ∀ kv ∈ mp, Pk kv.1 ∧ Pv kv.2)
    (hlen : mapContentLen ck cv mp < LMAX)
    (mo : Bool) (p : RoomPolicy) (s : RoomState) (v : VerifiedRoomState)
    (hp : RoomPolicyValid mo p) (hs : RoomStateValid mo s)
    (hvs : VerifiedRoomStateValid mo v) :
    mapDeserialize ck cv ((mapSerialize ck cv mp).getD []) =
      some (some (mp, [])) ∧
    (roomPolicyC mo).dec ((roomPolicyC mo).enc p) = some (p, []) ∧
    (roomStateC mo).dec ((roomStateC mo).enc s) = some (s, []) ∧
    (verifiedRoomStateC mo).dec ((verifiedRoomStateC mo).enc v) =
      some (v, []) := by
  refine ⟨?_, ?_, ?_, ?_⟩
  · have hw := writeLength_some hlen
    have henc : mapSerialize ck cv mp =
        some (writeLengthT (mapContentLen ck cv mp) ++
          (mp.map fun kv => ck.enc kv.1 ++ cv.enc kv.2).join) := by
      unfold mapSerialize
      rw [hw]
    have hrt := map_roundtrip hk hv mp hsort hPm henc []
    rw [henc]
    simpa using hrt
  · have h := ((GoodOn_roomPolicyC mo) p hp).1 []
    simpa using h
  · have h := ((GoodOn_roomStateC mo) s hs).1 []
    simpa using h
  · have h := ((GoodOn_verifiedRoomStateC mo) v hvs).1 []
    simpa using h

/-- Claim C8 (witness): the round-trip theorem evaluated at the singleton
one-byte-key/value map and at concrete empty-membership policy, state and
verified state under the TLS-style encoding. -/
theorem wire_roundtrip_witness :
    (List.Pairwise (fun a b : Nat × Nat => a.1 < b.1) [(170, 187)] ∧
     (∀ kv ∈ [((170 : Nat), (187 : Nat))], kv.1 < 256 ∧ kv.2 < 256) ∧
     mapContentLen (u8C []) (u8C []) [(170, 187)] < LMAX ∧
     RoomPolicyValid false wirePolicyExample ∧
     RoomStateValid false wireStateExample ∧
     VerifiedRoomStateValid false wireVerifiedExample) ∧
    (mapDeserialize (u8C []) (u8C [])
        ((mapSerialize (u8C []) (u8C []) [(170, 187)]).getD []) =
      some (some ([(170, 187)], [])) ∧
     (roomPolicyC false).dec ((roomPolicyC false).enc wirePolicyExample) =
       some (wirePolicyExample, []) ∧
     (roomStateC false).dec ((roomStateC false).enc wireStateExample) =
       some (wireStateExample, []) ∧
     (verifiedRoomStateC false).dec
         ((verifiedRoomStateC false).enc wireVerifiedExample) =
       some (wireVerifiedExample, [])) := by
  have hpair : List.Pairwise (fun a b : Nat × Nat => a.1 < b.1)
      [(170, 187)] := by simp
  have hvals : ∀ kv ∈ [((170 : Nat), (187 : Nat))],
      kv.1 < 256 ∧ kv.2 < 256 := by decide
  have hlen : mapContentLen (u8C []) (u8C []) [(170, 187)] < LMAX := by
    decide
  have hp : RoomPolicyValid false wirePolicyExample :=
    ⟨List.Pairwise.nil, by simp [wirePolicyExample], by decide,
     by simp [wirePolicyExample], by simp [wirePolicyExample]⟩
  have hs : RoomStateValid false wireStateExample :=
    ⟨hp, List.Pairwise.nil, by simp [wireStateExample], by decide,
     List.Pairwise.nil, by simp [wireStateExample], by decide⟩
  have hv : VerifiedRoomStateValid false wireVerifiedExample := hs
  exact ⟨⟨hpair, hvals, hlen, hp, hs, hv⟩,
    wire_roundtrip (GoodOn_u8C []) (GoodOn_u8C []) [(170, 187)]
      hpair hvals hlen false _ _ _ hp hs hv⟩

end MimiRoomPolicy
